import Mathlib

/-
Verification development for the dent structured-data notation engine
(repository: Duckonaut/dent).

The repository ships the public C header `cdent/include/cdent.h`, two example
host programs, and a command-line query tool.  The parsing/evaluation engine
itself (lexer, parser, extension registry with the built-ins `import` and
`merge`, value model, serializer) is not part of the available sources, so it
is modelled here from the specification; definitions embedding such modelled
behaviour carry a doc comment starting with `Modelled from the spec:`.
Host-side code (the query tool `main`, the example programs) and the C
signatures of the header are embedded from the sources directly.

Text is modelled as `List Char` (mirroring C character buffers), machine
integers as `Int`/`Nat`, and the C `double` payload of Float values as an
exact decimal mantissa/scale pair, since bit-level binary floating point is
outside the scope of this shallow embedding.
-/

namespace Dent

/-- Character strings are modelled as lists of characters. -/
abbrev Str := List Char

/-- Modelled from the spec: the Value data model (§3) — a closed variant with
cases None, Bool, Int, Float, Str, List (ordered children) and Dict (ordered
string-keyed mapping).  The Float payload is an exact decimal
mantissa/scale pair `m * 10 ^ (- s)`. -/
inductive Value where
  | none
  | bool (b : Bool)
  | int (n : Int)
  | float (m : Int) (s : Nat)
  | str (s : Str)
  | list (xs : List Value)
  | dict (kvs : List (Str × Value))

/-- Whitespace characters of the notation: space, tab, newline (§4.1). -/
def wsChar (c : Char) : Bool := decide (c = ' ' ∨ c = '\t' ∨ c = '\n')

/-- Reserved punctuation of the notation plus the comment starter (§4.1). -/
def reservedChar (c : Char) : Bool :=
  decide (c = '\x7b' ∨ c = '\x7d' ∨ c = '[' ∨ c = ']' ∨ c = ':' ∨ c = '@' ∨
    c = '\"' ∨ c = '#')

/-- Characters allowed inside a bare (unquoted) token. -/
def bareChar (c : Char) : Bool := !(wsChar c || reservedChar c)

/-- Decimal digit test, by character code. -/
def isDigitC (c : Char) : Bool := decide (48 ≤ c.toNat ∧ c.toNat ≤ 57)

/-- Numeric value of a decimal digit character. -/
def charToDigit (c : Char) : Nat := c.toNat - 48

/-- Character for a decimal digit value. -/
def digitToChar (d : Nat) : Char := Char.ofNat (48 + d)

/-- Value of a big-endian decimal digit string. -/
def natVal (s : Str) : Nat := s.foldl (fun a c => 10 * a + charToDigit c) 0

/-- Big-endian decimal digit string of a positive natural number, by
repeated division; the fuel bounds the recursion and any value above the
number itself suffices. -/
def natToCharsAux : Nat → Nat → Str
  | 0, _ => []
  | _ + 1, 0 => []
  | f + 1, n + 1 =>
    natToCharsAux f ((n + 1) / 10) ++ [digitToChar ((n + 1) % 10)]

/-- Big-endian decimal digit string of a natural number. -/
def natToChars (n : Nat) : Str :=
  if n = 0 then ['0'] else natToCharsAux (n + 1) n

/-- Decimal representation of an integer, with a leading minus sign when
negative. -/
def intToChars (n : Int) : Str :=
  if n < 0 then '-' :: natToChars n.natAbs else natToChars n.toNat

theorem digitToChar_isDigit {d : Nat} (h : d < 10) :
    isDigitC (digitToChar d) = true := by
  interval_cases d <;> decide

theorem charToDigit_digitToChar {d : Nat} (h : d < 10) :
    charToDigit (digitToChar d) = d := by
  interval_cases d <;> decide

theorem digitToChar_bare {d : Nat} (h : d < 10) :
    bareChar (digitToChar d) = true := by
  interval_cases d <;> decide

theorem natVal_append_one (s : Str) (c : Char) :
    natVal (s ++ [c]) = 10 * natVal s + charToDigit c := by
  simp [natVal, List.foldl_append]

theorem natToCharsAux_spec :
    ∀ f n : Nat, n < f →
      natVal (natToCharsAux f n) = n ∧
      (∀ c ∈ natToCharsAux f n, isDigitC c = true) ∧
      (n ≠ 0 → natToCharsAux f n ≠ []) := by
  intro f
  induction f with
  | zero => intro n hn; omega
  | succ f ih =>
    intro n hn
    cases n with
    | zero =>
      refine ⟨by rw [natToCharsAux]; rfl, ?_, fun h0 => absurd rfl h0⟩
      intro c hc
      rw [natToCharsAux] at hc
      simp at hc
    | succ m =>
      have hdiv : (m + 1) / 10 < f := by omega
      obtain ⟨ih1, ih2, ih3⟩ := ih ((m + 1) / 10) hdiv
      have hmod : (m + 1) % 10 < 10 := Nat.mod_lt _ (by norm_num)
      refine ⟨?_, ?_, ?_⟩
      · rw [natToCharsAux, natVal_append_one, ih1, charToDigit_digitToChar hmod]
        omega
      · intro c hc
        rw [natToCharsAux] at hc
        rcases List.mem_append.mp hc with hc | hc
        · exact ih2 c hc
        · simp at hc; subst hc; exact digitToChar_isDigit hmod
      · intro _
        rw [natToCharsAux]
        simp

theorem natVal_natToChars (n : Nat) : natVal (natToChars n) = n := by
  by_cases h : n = 0
  · subst h; decide
  · rw [natToChars, if_neg h]
    exact (natToCharsAux_spec (n + 1) n (by omega)).1

theorem natToChars_ne_nil (n : Nat) : natToChars n ≠ [] := by
  by_cases h : n = 0
  · subst h; simp [natToChars]
  · rw [natToChars, if_neg h]
    exact (natToCharsAux_spec (n + 1) n (by omega)).2.2 h

theorem natToChars_all_digit (n : Nat) : ∀ c ∈ natToChars n, isDigitC c = true := by
  intro c hc
  by_cases h : n = 0
  · subst h; simp [natToChars] at hc; subst hc; decide
  · rw [natToChars, if_neg h] at hc
    exact (natToCharsAux_spec (n + 1) n (by omega)).2.1 c hc

theorem intToChars_ne_nil (n : Int) : intToChars n ≠ [] := by
  rw [intToChars]
  split
  · simp
  · exact natToChars_ne_nil _

theorem intToChars_chars (n : Int) :
    ∀ c ∈ intToChars n, isDigitC c = true ∨ c = '-' := by
  intro c hc
  rw [intToChars] at hc
  split at hc
  · rw [List.mem_cons] at hc
    rcases hc with rfl | hc
    · right; rfl
    · left; exact natToChars_all_digit _ c hc
  · left; exact natToChars_all_digit _ c hc

theorem takeWhile_all_append (p : Char → Bool) (l r : Str)
    (hl : ∀ c ∈ l, p c = true)
    (hr : ∀ c, r.head? = some c → p c = false) :
    (l ++ r).takeWhile p = l ∧ (l ++ r).dropWhile p = r := by
  induction l with
  | nil =>
    cases r with
    | nil => simp
    | cons c r =>
      have := hr c rfl
      simp [List.takeWhile, List.dropWhile, this]
  | cons c l ih =>
    have hc : p c = true := hl c (by simp)
    have := ih (fun x hx => hl x (by simp [hx]))
    simp [List.takeWhile, List.dropWhile, hc, this.1, this.2]

/-- Modelled from the spec: base-10 integer-literal recognition for a bare
token — an optional leading minus sign followed by decimal digits, with the
whole token consumed (§4.1). -/
def parseIntLit (s : Str) : Option Int :=
  match s with
  | [] => Option.none
  | c :: r =>
    if c = '-' then
      if r.isEmpty ∨ ¬ r.all isDigitC then Option.none
      else some (-(natVal r : Int))
    else
      if (c :: r).all isDigitC then some ((natVal (c :: r) : Int))
      else Option.none

/-- Modelled from the spec: floating-literal recognition for a bare token —
an optional minus sign, an integer digit run, a decimal point and a fraction
digit run, with the whole token consumed (§4.1; the modelled literal form is
the one the serializer emits).  The result is the exact decimal pair
(mantissa, fraction-digit count). -/
def parseFloatCore (u : Str) : Option (Nat × Nat) :=
  if (u.takeWhile isDigitC).length = 0 then Option.none
  else if (u.dropWhile isDigitC).head? = some '.' ∧
      ((u.dropWhile isDigitC).tail).all isDigitC then
    some (natVal (u.takeWhile isDigitC ++ (u.dropWhile isDigitC).tail),
      ((u.dropWhile isDigitC).tail).length)
  else Option.none

/-- Modelled from the spec: signed floating-literal recognition. -/
def parseFloatLit (s : Str) : Option (Int × Nat) :=
  if s.head? = some '-' then (parseFloatCore s.tail).map (fun p => (-(p.1 : Int), p.2))
  else (parseFloatCore s).map (fun p => ((p.1 : Int), p.2))

/-- Mantissa digit string of a Float value, left-padded with zeros so a
decimal point can be inserted `s` digits from the right. -/
def floatDigits (m : Int) (s : Nat) : Str :=
  List.replicate (s + 1 - (natToChars m.natAbs).length) '0' ++ natToChars m.natAbs

/-- Modelled from the spec: the canonical decimal text of a Float value —
the padded mantissa digits with the decimal point inserted `s` digits from
the right, and a leading minus sign when negative (§4.4). -/
def floatToChars (m : Int) (s : Nat) : Str :=
  (if m < 0 then ['-'] else []) ++
    ((floatDigits m s).take ((floatDigits m s).length - s) ++
      '.' :: (floatDigits m s).drop ((floatDigits m s).length - s))

theorem parseIntLit_intToChars (n : Int) : parseIntLit (intToChars n) = some n := by
  by_cases hn : n < 0
  · rw [intToChars, if_pos hn]
    rw [parseIntLit]
    rw [if_pos rfl, if_neg]
    · rw [natVal_natToChars]
      congr 1
      omega
    · push_neg
      constructor
      · intro hemp
        exact natToChars_ne_nil n.natAbs (List.isEmpty_iff.mp hemp)
      · rw [List.all_eq_true]
        exact natToChars_all_digit _
  · rw [intToChars, if_neg hn]
    obtain ⟨c, r, h⟩ := List.exists_cons_of_ne_nil (natToChars_ne_nil n.toNat)
    rw [h, parseIntLit]
    have hdig : ∀ x ∈ c :: r, isDigitC x = true := by
      rw [← h]; exact natToChars_all_digit _
    rw [if_neg, if_pos]
    · rw [← h, natVal_natToChars]
      congr 1
      omega
    · rw [List.all_eq_true]; exact hdig
    · intro hc
      have := hdig c (by simp)
      rw [hc] at this
      simp [isDigitC] at this

theorem natVal_cons_zero (t : Str) : natVal ('0' :: t) = natVal t := by
  have : (10 : Nat) * 0 + charToDigit '0' = 0 := by decide
  simp only [natVal, List.foldl_cons, this]

theorem natVal_replicate_zero (k : Nat) (l : Str) :
    natVal (List.replicate k '0' ++ l) = natVal l := by
  induction k with
  | zero => simp
  | succ k ih => simpa [List.replicate_succ, natVal_cons_zero] using ih

theorem floatDigits_all_digit (m : Int) (s : Nat) :
    ∀ c ∈ floatDigits m s, isDigitC c = true := by
  intro c hc
  rw [floatDigits, List.mem_append] at hc
  rcases hc with hc | hc
  · rw [List.eq_of_mem_replicate hc]; decide
  · exact natToChars_all_digit _ c hc

theorem floatDigits_len (m : Int) (s : Nat) : s + 1 ≤ (floatDigits m s).length := by
  have h := natToChars_ne_nil m.natAbs
  have : 1 ≤ (natToChars m.natAbs).length := List.length_pos.mpr h
  simp only [floatDigits, List.length_append, List.length_replicate]
  omega

theorem natVal_floatDigits (m : Int) (s : Nat) : natVal (floatDigits m s) = m.natAbs := by
  rw [floatDigits, natVal_replicate_zero, natVal_natToChars]

theorem parseFloatCore_float (m : Int) (s : Nat) :
    parseFloatCore ((floatDigits m s).take ((floatDigits m s).length - s) ++
      '.' :: (floatDigits m s).drop ((floatDigits m s).length - s)) =
    some (m.natAbs, s) := by
  have hall := floatDigits_all_digit m s
  have hlen := floatDigits_len m s
  have hip : ∀ c ∈ (floatDigits m s).take ((floatDigits m s).length - s),
      isDigitC c = true := fun c hc => hall c (List.take_subset _ _ hc)
  have hfp : ∀ c ∈ (floatDigits m s).drop ((floatDigits m s).length - s),
      isDigitC c = true := fun c hc => hall c (List.drop_subset _ _ hc)
  have hsplit := takeWhile_all_append isDigitC _
    ('.' :: (floatDigits m s).drop ((floatDigits m s).length - s)) hip
    (fun c hc => by
      simp only [List.head?_cons, Option.some.injEq] at hc
      subst hc; decide)
  have hfpb : ((floatDigits m s).drop ((floatDigits m s).length - s)).all isDigitC
      = true := List.all_eq_true.mpr hfp
  have hc1 : ¬ ((((floatDigits m s).take ((floatDigits m s).length - s) ++
      '.' :: (floatDigits m s).drop ((floatDigits m s).length - s)).takeWhile
        isDigitC).length = 0) := by
    rw [hsplit.1, List.length_take, min_eq_left (Nat.sub_le _ _)]
    omega
  have hc2 : (((floatDigits m s).take ((floatDigits m s).length - s) ++
      '.' :: (floatDigits m s).drop ((floatDigits m s).length - s)).dropWhile
        isDigitC).head? = some '.' ∧
      ((((floatDigits m s).take ((floatDigits m s).length - s) ++
      '.' :: (floatDigits m s).drop ((floatDigits m s).length - s)).dropWhile
        isDigitC).tail).all isDigitC = true := by
    rw [hsplit.2]
    exact ⟨rfl, by simp only [List.tail_cons]; exact hfpb⟩
  rw [parseFloatCore, if_neg hc1, if_pos hc2, hsplit.1, hsplit.2]
  simp only [List.tail_cons]
  rw [List.take_append_drop, natVal_floatDigits]
  simp only [Option.some.injEq, Prod.mk.injEq, true_and]
  rw [List.length_drop]
  omega

theorem parseFloatLit_floatToChars (m : Int) (s : Nat) :
    parseFloatLit (floatToChars m s) = some (m, s) := by
  have hlen := floatDigits_len m s
  have htake : ((floatDigits m s).take ((floatDigits m s).length - s)) ≠ [] := by
    intro h
    have hl := congrArg List.length h
    rw [List.length_take] at hl
    simp only [List.length_nil] at hl
    omega
  by_cases hm : m < 0
  · rw [floatToChars, if_pos hm, List.singleton_append, parseFloatLit,
      if_pos (by rw [List.head?_cons]), List.tail_cons, parseFloatCore_float]
    simp only [Option.map_some', Option.some.injEq, Prod.mk.injEq, and_true]
    omega
  · rw [floatToChars, if_neg hm, List.nil_append]
    obtain ⟨c, r, hcr⟩ := List.exists_cons_of_ne_nil htake
    have hcd : isDigitC c = true := by
      have hcm : c ∈ (floatDigits m s).take ((floatDigits m s).length - s) := by
        rw [hcr]; exact List.mem_cons_self _ _
      exact floatDigits_all_digit m s c (List.take_subset _ _ hcm)
    have hhead : ((floatDigits m s).take ((floatDigits m s).length - s) ++
        '.' :: (floatDigits m s).drop ((floatDigits m s).length - s)).head? =
        some c := by
      rw [hcr, List.cons_append, List.head?_cons]
    rw [parseFloatLit, if_neg, parseFloatCore_float]
    · simp only [Option.map_some', Option.some.injEq, Prod.mk.injEq, and_true]
      omega
    · rw [hhead]
      simp only [Option.some.injEq]
      intro hc
      rw [hc] at hcd
      simp [isDigitC] at hcd

theorem dot_mem_floatToChars (m : Int) (s : Nat) : '.' ∈ floatToChars m s := by
  rw [floatToChars]
  exact List.mem_append_right _ (List.mem_append_right _ (List.mem_cons_self _ _))

theorem floatToChars_chars (m : Int) (s : Nat) :
    ∀ c ∈ floatToChars m s, isDigitC c = true ∨ c = '-' ∨ c = '.' := by
  intro c hc
  rw [floatToChars] at hc
  simp only [List.mem_append, List.mem_cons] at hc
  rcases hc with hc | hc | hc | hc
  · split at hc
    · simp only [List.mem_singleton] at hc
      right; left; exact hc
    · simp at hc
  · exact Or.inl (floatDigits_all_digit m s c (List.take_subset _ _ hc))
  · right; right; exact hc
  · exact Or.inl (floatDigits_all_digit m s c (List.drop_subset _ _ hc))

theorem floatToChars_ne_nil (m : Int) (s : Nat) : floatToChars m s ≠ [] := by
  intro h
  exact List.not_mem_nil '.' (h ▸ dot_mem_floatToChars m s)

theorem parseIntLit_floatToChars (m : Int) (s : Nat) :
    parseIntLit (floatToChars m s) = Option.none := by
  have hdot := dot_mem_floatToChars m s
  obtain ⟨c, r, hcr⟩ := List.exists_cons_of_ne_nil (List.ne_nil_of_mem hdot)
  rw [hcr, parseIntLit]
  have hdotr : ¬ isDigitC '.' = true := by decide
  by_cases hc : c = '-'
  · rw [if_pos hc, if_pos]
    by_cases hdm : '.' ∈ r
    · right
      intro hall
      exact hdotr (List.all_eq_true.mp hall '.' hdm)
    · exfalso
      rw [hcr] at hdot
      rcases List.mem_cons.mp hdot with h | h
      · rw [hc] at h; simp at h
      · exact hdm h
  · rw [if_neg hc, if_neg]
    intro hall
    rw [← hcr] at hall
    exact hdotr (List.all_eq_true.mp hall '.' hdot)

/-- Characters of the bare boolean literal for true. -/
def trueChars : Str := ['t', 'r', 'u', 'e']

/-- Characters of the bare boolean literal for false. -/
def falseChars : Str := ['f', 'a', 'l', 's', 'e']

/-- Modelled from the spec: classification of a bare token during parsing —
Bool if exactly the true/false literal, else Int, else Float, else Str with
the literal text (§4.1). -/
def classifyBare (s : Str) : Value :=
  if s = trueChars then Value.bool true
  else if s = falseChars then Value.bool false
  else
    match parseIntLit s with
    | some n => Value.int n
    | Option.none =>
      match parseFloatLit s with
      | some p => Value.float p.1 p.2
      | Option.none => Value.str s

theorem classifyBare_true : classifyBare trueChars = Value.bool true := by
  rw [classifyBare, if_pos rfl]

theorem classifyBare_false : classifyBare falseChars = Value.bool false := by
  rw [classifyBare, if_neg (by decide), if_pos rfl]

theorem intToChars_ne_true (n : Int) : intToChars n ≠ trueChars := by
  intro h
  have : 't' ∈ intToChars n := by rw [h]; decide
  rcases intToChars_chars n 't' this with hd | hd <;> simp [isDigitC] at hd

theorem intToChars_ne_false (n : Int) : intToChars n ≠ falseChars := by
  intro h
  have : 'f' ∈ intToChars n := by rw [h]; decide
  rcases intToChars_chars n 'f' this with hd | hd <;> simp [isDigitC] at hd

theorem floatToChars_ne_true (m : Int) (s : Nat) : floatToChars m s ≠ trueChars := by
  intro h
  have : 't' ∈ floatToChars m s := by rw [h]; decide
  rcases floatToChars_chars m s 't' this with hd | hd | hd <;> simp [isDigitC] at hd

theorem floatToChars_ne_false (m : Int) (s : Nat) : floatToChars m s ≠ falseChars := by
  intro h
  have : 'f' ∈ floatToChars m s := by rw [h]; decide
  rcases floatToChars_chars m s 'f' this with hd | hd | hd <;> simp [isDigitC] at hd

theorem classifyBare_int (n : Int) : classifyBare (intToChars n) = Value.int n := by
  rw [classifyBare, if_neg (intToChars_ne_true n), if_neg (intToChars_ne_false n),
    parseIntLit_intToChars n]

theorem classifyBare_float (m : Int) (s : Nat) :
    classifyBare (floatToChars m s) = Value.float m s := by
  rw [classifyBare, if_neg (floatToChars_ne_true m s),
    if_neg (floatToChars_ne_false m s), parseIntLit_floatToChars m s,
    parseFloatLit_floatToChars m s]

/-- True when a bare token would be classified back as a plain string. -/
def classifiesAsStr (s : Str) : Bool :=
  decide (s ≠ trueChars ∧ s ≠ falseChars ∧ parseIntLit s = Option.none ∧
    parseFloatLit s = Option.none)

theorem classifyBare_of_classifiesAsStr {s : Str} (h : classifiesAsStr s = true) :
    classifyBare s = Value.str s := by
  rw [classifiesAsStr, decide_eq_true_eq] at h
  obtain ⟨h1, h2, h3, h4⟩ := h
  rw [classifyBare, if_neg h1, if_neg h2, h3]
  simp [h4]

/-- Tokens of the notation (§4.1): punctuation, quoted strings (content with
escapes already resolved) and bare tokens. -/
inductive Token where
  | lbrace
  | rbrace
  | lbrack
  | rbrack
  | colon
  | atSign
  | quoted (s : Str)
  | bare (s : Str)
deriving DecidableEq

/-- Error taxonomy of the engine (§7): lexical, syntactic, unknown function,
function arity/type, missing imported file, import cycle; `outOfFuel` is the
artefact of the bounded modelling of recursion and is proved unreachable in
the situations the claims speak about. -/
inductive DentError where
  | lexErr
  | synErr
  | unknownFn
  | fnArgErr
  | importMissing
  | importCycle
  | outOfFuel
deriving DecidableEq

/-- Modelled from the spec: resolution of a recognized escape sequence inside
a quoted string; unrecognized escapes are lexing errors (§4.1). -/
def unescapeChar (c : Char) : Option Char :=
  if c = '\"' then some '\"'
  else if c = '\\' then some '\\'
  else if c = 'n' then some '\n'
  else if c = 't' then some '\t'
  else Option.none

/-- Modelled from the spec: lexing of a quoted string body after the opening
double quote, up to the next unescaped double quote; fails on an unterminated
string or an invalid escape (§4.1).  Returns the resolved content and the
remaining input. -/
def lexQuoted : Str → Except DentError (Str × Str)
  | [] => Except.error DentError.lexErr
  | c :: rest =>
    if c = '\"' then Except.ok ([], rest)
    else if c = '\\' then
      match rest with
      | [] => Except.error DentError.lexErr
      | e :: rest2 =>
        match unescapeChar e with
        | some u =>
          match lexQuoted rest2 with
          | Except.ok sr => Except.ok (u :: sr.1, sr.2)
          | Except.error err => Except.error err
        | Option.none => Except.error DentError.lexErr
    else
      match lexQuoted rest with
      | Except.ok sr => Except.ok (c :: sr.1, sr.2)
      | Except.error err => Except.error err

theorem lexQuoted_rest_lt :
    ∀ n : Nat, ∀ cs : Str, cs.length ≤ n → ∀ sr : Str × Str,
      lexQuoted cs = Except.ok sr → sr.2.length < cs.length := by
  intro n
  induction n with
  | zero =>
    intro cs hle sr h
    cases cs with
    | nil => rw [lexQuoted] at h; cases h
    | cons c rest => simp at hle
  | succ n ih =>
    intro cs hle sr h
    cases cs with
    | nil => rw [lexQuoted] at h; cases h
    | cons c rest =>
      cases rest with
      | nil =>
        rw [lexQuoted] at h
        by_cases h1 : c = '\"'
        · rw [if_pos h1] at h
          cases h
          simp
        · rw [if_neg h1] at h
          by_cases h2 : c = '\\'
          · rw [if_pos h2] at h; cases h
          · rw [if_neg h2, lexQuoted] at h
            cases h
      | cons e rest2 =>
        rw [lexQuoted] at h
        by_cases h1 : c = '\"'
        · rw [if_pos h1] at h
          cases h
          simp
        · rw [if_neg h1] at h
          by_cases h2 : c = '\\'
          · rw [if_pos h2] at h
            cases hu : unescapeChar e with
            | none => rw [hu] at h; cases h
            | some u =>
              rw [hu] at h
              cases h5 : lexQuoted rest2 with
              | ok sr2 =>
                rw [h5] at h
                cases h
                have hlt := ih rest2 (by simp at hle; omega) sr2 h5
                simp only [List.length_cons]
                omega
              | error e2 => rw [h5] at h; cases h
          · rw [if_neg h2] at h
            cases h5 : lexQuoted (e :: rest2) with
            | ok sr2 =>
              rw [h5] at h
              cases h
              have hlt := ih (e :: rest2) (by simp at hle ⊢; omega) sr2 h5
              simp only [List.length_cons] at hlt ⊢
              omega
            | error e2 => rw [h5] at h; cases h

theorem lexQuoted_rest_lt' {cs : Str} {sr : Str × Str}
    (h : lexQuoted cs = Except.ok sr) : sr.2.length < cs.length :=
  lexQuoted_rest_lt cs.length cs (Nat.le_refl _) sr h

/-- Modelled from the spec: discarding a comment — everything up to and
including the line terminator (§4.1). -/
def dropLine (s : Str) : Str := (s.dropWhile (fun c => !(c = '\n'))).tail

theorem dropWhileLenLe (p : Char → Bool) (l : Str) :
    (l.dropWhile p).length ≤ l.length := by
  induction l with
  | nil => simp
  | cons c l ih =>
    rw [List.dropWhile_cons]
    split
    · simp only [List.length_cons]; omega
    · simp

theorem dropLine_length_le (s : Str) : (dropLine s).length ≤ s.length := by
  rw [dropLine]
  calc ((s.dropWhile (fun c => !(c = '\n'))).tail).length
      ≤ (s.dropWhile (fun c => !(c = '\n'))).length := by
        rw [List.length_tail]; omega
    _ ≤ s.length := dropWhileLenLe _ _

/-- Modelled from the spec: the lexer (§4.1) — whitespace separates tokens,
`#` starts a line comment, the six punctuation characters are single-character
tokens, a double quote opens a quoted string, and any other character starts a
bare token extending over consecutive bare characters. -/
def lexF : Nat → Str → Except DentError (List Token)
  | 0, _ => Except.error DentError.outOfFuel
  | _ + 1, [] => Except.ok []
  | f + 1, c :: cs =>
    if wsChar c then lexF f cs
    else if c = '#' then lexF f (dropLine cs)
    else if c = '\x7b' then (lexF f cs).map (fun ts => Token.lbrace :: ts)
    else if c = '\x7d' then (lexF f cs).map (fun ts => Token.rbrace :: ts)
    else if c = '[' then (lexF f cs).map (fun ts => Token.lbrack :: ts)
    else if c = ']' then (lexF f cs).map (fun ts => Token.rbrack :: ts)
    else if c = ':' then (lexF f cs).map (fun ts => Token.colon :: ts)
    else if c = '@' then (lexF f cs).map (fun ts => Token.atSign :: ts)
    else if c = '\"' then
      match lexQuoted cs with
      | Except.ok sr => (lexF f sr.2).map (fun ts => Token.quoted sr.1 :: ts)
      | Except.error e => Except.error e
    else
      (lexF f (cs.dropWhile bareChar)).map
        (fun ts => Token.bare (c :: cs.takeWhile bareChar) :: ts)

/-- The lexer on a whole buffer: every step consumes at least one character,
so fuel one beyond the input length never runs out. -/
def lex (s : Str) : Except DentError (List Token) := lexF (s.length + 1) s

/-- Modelled from the spec: escaping of a string for re-emission inside
quotes — double quotes and backslashes are backslash-escaped, every other
character is kept verbatim (§4.4). -/
def escapeChars : Str → Str
  | [] => []
  | c :: cs =>
    if c = '\"' ∨ c = '\\' then '\\' :: c :: escapeChars cs
    else c :: escapeChars cs

/-- Concrete text of one token. -/
def tokenChars : Token → Str
  | Token.lbrace => ['\x7b']
  | Token.rbrace => ['\x7d']
  | Token.lbrack => ['[']
  | Token.rbrack => [']']
  | Token.colon => [':']
  | Token.atSign => ['@']
  | Token.quoted s => '\"' :: (escapeChars s ++ ['\"'])
  | Token.bare s => s

/-- Rendering of a token sequence back to text, one space after each token. -/
def render : List Token → Str
  | [] => []
  | t :: ts => tokenChars t ++ ' ' :: render ts

/-- A well-formed token: a bare token is non-empty and uses only bare
characters (quoted and punctuation tokens are unconstrained). -/
def wfToken : Token → Bool
  | Token.bare s => !s.isEmpty && s.all bareChar
  | _ => true

theorem bareChar_not_ws {c : Char} (h : bareChar c = true) : wsChar c = false := by
  by_contra hw
  rw [Bool.not_eq_false] at hw
  rw [bareChar, hw] at h
  simp at h

theorem bareChar_not_reserved {c : Char} (h : bareChar c = true) :
    reservedChar c = false := by
  by_contra hw
  rw [Bool.not_eq_false] at hw
  rw [bareChar, hw] at h
  simp at h

theorem bareChar_nes {c : Char} (h : bareChar c = true) :
    ¬(c = '#') ∧ ¬(c = '\x7b') ∧ ¬(c = '\x7d') ∧ ¬(c = '[') ∧ ¬(c = ']') ∧
    ¬(c = ':') ∧ ¬(c = '@') ∧ ¬(c = '\"') := by
  have hr := bareChar_not_reserved h
  refine ⟨?_, ?_, ?_, ?_, ?_, ?_, ?_, ?_⟩ <;>
    (intro hc; subst hc; simp [reservedChar] at hr)

theorem lexQuoted_cons_quote (t : Str) : lexQuoted ('\"' :: t) = Except.ok ([], t) := by
  cases t with
  | nil => rw [lexQuoted, if_pos rfl]
  | cons e t2 => rw [lexQuoted, if_pos rfl]

theorem lexQuoted_cons_plain {c : Char} (h1 : ¬(c = '\"')) (h2 : ¬(c = '\\'))
    (t : Str) :
    lexQuoted (c :: t) =
      match lexQuoted t with
      | Except.ok sr => Except.ok (c :: sr.1, sr.2)
      | Except.error err => Except.error err := by
  cases t with
  | nil =>
    conv_lhs => rw [lexQuoted]
    rw [if_neg h1, if_neg h2]
  | cons e t2 =>
    conv_lhs => rw [lexQuoted]
    rw [if_neg h1, if_neg h2]

theorem lexQuoted_cons_escape {c u : Char} (hu : unescapeChar c = some u) (t : Str) :
    lexQuoted ('\\' :: c :: t) =
      match lexQuoted t with
      | Except.ok sr => Except.ok (u :: sr.1, sr.2)
      | Except.error err => Except.error err := by
  rw [lexQuoted, if_neg (by decide), if_pos rfl, hu]

theorem lexQuoted_escape (s : Str) :
    ∀ r : Str, lexQuoted (escapeChars s ++ '\"' :: r) = Except.ok (s, r) := by
  induction s with
  | nil =>
    intro r
    rw [escapeChars, List.nil_append, lexQuoted_cons_quote]
  | cons c cs ih =>
    intro r
    rw [escapeChars]
    by_cases hc : c = '\"' ∨ c = '\\'
    · have hu : unescapeChar c = some c := by
        rcases hc with rfl | rfl <;> rfl
      rw [if_pos hc, List.cons_append, List.cons_append,
        lexQuoted_cons_escape hu, ih r]
    · push_neg at hc
      rw [if_neg (not_or.mpr ⟨hc.1, hc.2⟩), List.cons_append,
        lexQuoted_cons_plain hc.1 hc.2, ih r]

theorem lexF_ws (f : Nat) (x : Str) : lexF (f + 1) (' ' :: x) = lexF f x := by
  rw [lexF, if_pos (by decide)]

theorem lexF_render :
    ∀ ts : List Token, (∀ t ∈ ts, wfToken t = true) →
      ∀ fuel : Nat, 2 * ts.length + 1 ≤ fuel →
        lexF fuel (render ts) = Except.ok ts := by
  intro ts
  induction ts with
  | nil =>
    intro _ fuel hf
    cases fuel with
    | zero => omega
    | succ f => rw [render, lexF]
  | cons t ts ih =>
    intro hwf fuel hf
    simp only [List.length_cons] at hf
    cases fuel with
    | zero => omega
    | succ f =>
      cases f with
      | zero => omega
      | succ f =>
        have hlex : lexF f (render ts) = Except.ok ts :=
          ih (fun x hx => hwf x (List.mem_cons_of_mem _ hx)) f (by omega)
        rw [render]
        cases t with
        | lbrace =>
          rw [tokenChars, List.singleton_append, lexF, if_neg (by decide),
            if_neg (by decide), if_pos rfl, lexF_ws, hlex]
          exact rfl
        | rbrace =>
          rw [tokenChars, List.singleton_append, lexF, if_neg (by decide),
            if_neg (by decide), if_neg (by decide), if_pos rfl, lexF_ws, hlex]
          exact rfl
        | lbrack =>
          rw [tokenChars, List.singleton_append, lexF, if_neg (by decide),
            if_neg (by decide), if_neg (by decide), if_neg (by decide),
            if_pos rfl, lexF_ws, hlex]
          exact rfl
        | rbrack =>
          rw [tokenChars, List.singleton_append, lexF, if_neg (by decide),
            if_neg (by decide), if_neg (by decide), if_neg (by decide),
            if_neg (by decide), if_pos rfl, lexF_ws, hlex]
          exact rfl
        | colon =>
          rw [tokenChars, List.singleton_append, lexF, if_neg (by decide),
            if_neg (by decide), if_neg (by decide), if_neg (by decide),
            if_neg (by decide), if_neg (by decide), if_pos rfl, lexF_ws, hlex]
          exact rfl
        | atSign =>
          rw [tokenChars, List.singleton_append, lexF, if_neg (by decide),
            if_neg (by decide), if_neg (by decide), if_neg (by decide),
            if_neg (by decide), if_neg (by decide), if_neg (by decide),
            if_pos rfl, lexF_ws, hlex]
          exact rfl
        | quoted s =>
          rw [tokenChars, List.cons_append, List.append_assoc,
            List.singleton_append, lexF, if_neg (by decide), if_neg (by decide),
            if_neg (by decide), if_neg (by decide), if_neg (by decide),
            if_neg (by decide), if_neg (by decide), if_neg (by decide),
            if_pos rfl, lexQuoted_escape s (' ' :: render ts)]
          show Except.map (fun x => Token.quoted s :: x)
            (lexF (f + 1) (' ' :: render ts)) = Except.ok (Token.quoted s :: ts)
          rw [lexF_ws, hlex]
          exact rfl
        | bare s =>
          have hbt := hwf (Token.bare s) (List.mem_cons_self _ _)
          rw [wfToken, Bool.and_eq_true, Bool.not_eq_true'] at hbt
          obtain ⟨hne, hall⟩ := hbt
          obtain ⟨c, s', rfl⟩ : ∃ c s', s = c :: s' := by
            cases s with
            | nil => simp at hne
            | cons c s' => exact ⟨c, s', rfl⟩
          rw [List.all_cons, Bool.and_eq_true] at hall
          obtain ⟨hcb, hsall⟩ := hall
          have hnes := bareChar_nes hcb
          have hsp := takeWhile_all_append bareChar s' (' ' :: render ts)
            (fun x hx => by
              rw [List.all_eq_true] at hsall
              exact hsall x hx)
            (fun x hx => by
              simp only [List.head?_cons, Option.some.injEq] at hx
              subst hx; decide)
          rw [tokenChars, List.cons_append, lexF,
            if_neg (by rw [bareChar_not_ws hcb]; exact Bool.false_ne_true),
            if_neg hnes.1, if_neg hnes.2.1, if_neg hnes.2.2.1,
            if_neg hnes.2.2.2.1, if_neg hnes.2.2.2.2.1,
            if_neg hnes.2.2.2.2.2.1, if_neg hnes.2.2.2.2.2.2.1,
            if_neg hnes.2.2.2.2.2.2.2, hsp.1, hsp.2, lexF_ws, hlex]
          exact rfl

theorem render_length_ge (ts : List Token)
    (hwf : ∀ t ∈ ts, wfToken t = true) :
    2 * ts.length ≤ (render ts).length := by
  induction ts with
  | nil => simp [render]
  | cons t ts ih =>
    have h2 := ih (fun x hx => hwf x (List.mem_cons_of_mem _ hx))
    have h1 : 1 ≤ (tokenChars t).length := by
      cases t with
      | quoted s => simp [tokenChars]
      | bare s =>
        have hbt := hwf (Token.bare s) (List.mem_cons_self _ _)
        rw [wfToken, Bool.and_eq_true, Bool.not_eq_true'] at hbt
        rw [tokenChars]
        cases s with
        | nil => simp at hbt
        | cons c s' => simp
      | lbrace => decide
      | rbrace => decide
      | lbrack => decide
      | rbrack => decide
      | colon => decide
      | atSign => decide
    rw [render]
    simp only [List.length_append, List.length_cons]
    omega

theorem lex_render (ts : List Token) (hwf : ∀ t ∈ ts, wfToken t = true) :
    lex (render ts) = Except.ok ts := by
  show lexF ((render ts).length + 1) (render ts) = Except.ok ts
  apply lexF_render ts hwf
  have := render_length_ge ts hwf
  omega

/-- Bare text chosen for serializing the None value (the notation has no
None literal, so this re-parses as a Str — see the round-trip analysis). -/
def noneChars : Str := ['n', 'o', 'n', 'e']

/-- Duplicate-free keys check for a dict literal, first key against the
rest, recursively. -/
def keysNodup : List (Str × Value) → Bool
  | [] => true
  | (k, _) :: rest => !(rest.any (fun p => decide (p.1 = k))) && keysNodup rest

/-- Serialization of a dict key: bare when possible, quoted otherwise. -/
def serKey (k : Str) : Token :=
  if !k.isEmpty && k.all bareChar then Token.bare k else Token.quoted k

mutual

/-- Modelled from the spec: serialization of a Value into tokens (§4.4) —
containers regain their literal bracket form with children in iteration
order; strings are emitted bare exactly when they are non-empty, contain
only bare characters and would be classified back as a Str, and quoted
otherwise. -/
def serializeV : Value → List Token
  | Value.none => [Token.bare noneChars]
  | Value.bool true => [Token.bare trueChars]
  | Value.bool false => [Token.bare falseChars]
  | Value.int n => [Token.bare (intToChars n)]
  | Value.float m s => [Token.bare (floatToChars m s)]
  | Value.str s =>
    if !s.isEmpty && s.all bareChar && classifiesAsStr s then [Token.bare s]
    else [Token.quoted s]
  | Value.list xs => Token.lbrack :: (serializeL xs ++ [Token.rbrack])
  | Value.dict kvs => Token.lbrace :: (serializeD kvs ++ [Token.rbrace])

/-- Serialization of list elements in order. -/
def serializeL : List Value → List Token
  | [] => []
  | x :: xs => serializeV x ++ serializeL xs

/-- Serialization of dict entries in order, `key : value` each. -/
def serializeD : List (Str × Value) → List Token
  | [] => []
  | (k, v) :: kvs => serKey k :: Token.colon :: (serializeV v ++ serializeD kvs)

end

/-- Serialization of a Value to text: render its tokens.  This is the model
of the header operation `dent_to_str` (cdent.h line 54). -/
def dent_to_str (v : Value) : Str := render (serializeV v)

mutual

/-- Serializable values: no None node (the notation has no None literal)
and duplicate-free dict keys throughout. -/
def wfV : Value → Bool
  | Value.none => false
  | Value.bool _ => true
  | Value.int _ => true
  | Value.float _ _ => true
  | Value.str _ => true
  | Value.list xs => wfL xs
  | Value.dict kvs => keysNodup kvs && wfD kvs

/-- All list elements serializable. -/
def wfL : List Value → Bool
  | [] => true
  | x :: xs => wfV x && wfL xs

/-- All dict entry values serializable. -/
def wfD : List (Str × Value) → Bool
  | [] => true
  | (_, v) :: kvs => wfV v && wfD kvs

end

theorem digit_bareChar {c : Char} (h : isDigitC c = true) : bareChar c = true := by
  rw [isDigitC, decide_eq_true_eq] at h
  rw [bareChar, Bool.not_eq_true']
  rw [Bool.or_eq_false_iff]
  constructor
  · rw [wsChar]
    rw [decide_eq_false_iff_not]
    rintro (rfl | rfl | rfl) <;> simp_all
  · rw [reservedChar]
    rw [decide_eq_false_iff_not]
    rintro (rfl | rfl | rfl | rfl | rfl | rfl | rfl | rfl) <;> simp_all

theorem intToChars_all_bare (n : Int) : (intToChars n).all bareChar = true := by
  rw [List.all_eq_true]
  intro c hc
  rcases intToChars_chars n c hc with hd | rfl
  · exact digit_bareChar hd
  · decide

theorem floatToChars_all_bare (m : Int) (s : Nat) :
    (floatToChars m s).all bareChar = true := by
  rw [List.all_eq_true]
  intro c hc
  rcases floatToChars_chars m s c hc with hd | rfl | rfl
  · exact digit_bareChar hd
  · decide
  · decide

theorem wfToken_bare_of {s : Str} (hne : s ≠ []) (hall : s.all bareChar = true) :
    wfToken (Token.bare s) = true := by
  rw [wfToken, Bool.and_eq_true, Bool.not_eq_true']
  exact ⟨Bool.eq_false_iff.mpr (fun hh => hne (List.isEmpty_iff.mp hh)), hall⟩

theorem serializeV_wfTokens :
    ∀ n : Nat,
      (∀ t : Value, sizeOf t ≤ n → ∀ tok ∈ serializeV t, wfToken tok = true) ∧
      (∀ xs : List Value, sizeOf xs ≤ n →
        ∀ tok ∈ serializeL xs, wfToken tok = true) ∧
      (∀ kvs : List (Str × Value), sizeOf kvs ≤ n →
        ∀ tok ∈ serializeD kvs, wfToken tok = true) := by
  intro n
  induction n with
  | zero =>
    refine ⟨fun t ht => ?_, fun xs hxs => ?_, fun kvs hkvs => ?_⟩
    · cases t <;> simp at ht
    · cases xs <;> simp at hxs
    · cases kvs <;> simp at hkvs
  | succ n ih =>
    obtain ⟨ihV, ihL, ihD⟩ := ih
    refine ⟨fun t ht => ?_, fun xs hxs => ?_, fun kvs hkvs => ?_⟩
    · cases t with
      | none =>
        intro tok htok
        simp [serializeV] at htok
        subst htok
        decide
      | bool b =>
        cases b <;>
          (intro tok htok; simp [serializeV] at htok; subst htok; decide)
      | int m =>
        intro tok htok
        simp [serializeV] at htok
        subst htok
        exact wfToken_bare_of (intToChars_ne_nil m) (intToChars_all_bare m)
      | float m s =>
        intro tok htok
        simp [serializeV] at htok
        subst htok
        exact wfToken_bare_of (floatToChars_ne_nil m s) (floatToChars_all_bare m s)
      | str s =>
        intro tok htok
        rw [serializeV] at htok
        split at htok
        · rename_i hcond
          simp only [List.mem_singleton] at htok
          subst htok
          rw [Bool.and_eq_true, Bool.and_eq_true] at hcond
          refine wfToken_bare_of (fun hh => ?_) hcond.1.2
          rw [hh] at hcond
          simp at hcond
        · simp only [List.mem_singleton] at htok
          subst htok
          rfl
      | list xs =>
        intro tok htok
        rw [serializeV] at htok
        rcases List.mem_cons.mp htok with rfl | htok
        · rfl
        · rcases List.mem_append.mp htok with htok | htok
          · exact ihL xs (by simp at ht; omega) tok htok
          · simp only [List.mem_singleton] at htok
            subst htok
            rfl
      | dict kvs =>
        intro tok htok
        rw [serializeV] at htok
        rcases List.mem_cons.mp htok with rfl | htok
        · rfl
        · rcases List.mem_append.mp htok with htok | htok
          · exact ihD kvs (by simp at ht; omega) tok htok
          · simp only [List.mem_singleton] at htok
            subst htok
            rfl
    · cases xs with
      | nil => intro tok htok; simp [serializeL] at htok
      | cons x xs =>
        intro tok htok
        rw [serializeL] at htok
        rcases List.mem_append.mp htok with htok | htok
        · exact ihV x (by simp at hxs; omega) tok htok
        · exact ihL xs (by simp at hxs; omega) tok htok
    · cases kvs with
      | nil => intro tok htok; simp [serializeD] at htok
      | cons kv kvs =>
        obtain ⟨k, v⟩ := kv
        intro tok htok
        rw [serializeD] at htok
        rcases List.mem_cons.mp htok with rfl | htok
        · rw [serKey]
          split
          · rename_i hcond
            rw [Bool.and_eq_true] at hcond
            refine wfToken_bare_of (fun hh => ?_) hcond.2
            rw [hh] at hcond
            simp at hcond
          · rfl
        · rcases List.mem_cons.mp htok with rfl | htok
          · rfl
          · rcases List.mem_append.mp htok with htok | htok
            · exact ihV v (by simp at hkvs; omega) tok htok
            · exact ihD kvs (by simp at hkvs; omega) tok htok

/-- Whether a token can begin a value; a function-call argument list is
terminated by the first token that cannot (§4.2). -/
def canBegin : Token → Bool
  | Token.lbrace => true
  | Token.lbrack => true
  | Token.atSign => true
  | Token.quoted _ => true
  | Token.bare _ => true
  | _ => false

/-- List-variant test. -/
def isListV : Value → Bool
  | Value.list _ => true
  | _ => false

/-- Dict-variant test. -/
def isDictV : Value → Bool
  | Value.dict _ => true
  | _ => false

/-- Children of a list value, empty for other variants. -/
def listItems : Value → List Value
  | Value.list xs => xs
  | _ => []

/-- Entries of a dict value, empty for other variants. -/
def dictItems : Value → List (Str × Value)
  | Value.dict kvs => kvs
  | _ => []

/-- Replace the value at the first occurrence of the key, or append the
entry at the end: this keeps a colliding key at its first position while the
later value wins. -/
def insertReplace : List (Str × Value) → Str × Value → List (Str × Value)
  | [], kv => [kv]
  | (k0, v0) :: rest, kv =>
    if k0 = kv.1 then (k0, kv.2) :: rest
    else (k0, v0) :: insertReplace rest kv

/-- Fold one dict's entries into an accumulated dict, left to right. -/
def dictMergeOne (acc : List (Str × Value)) (kvs : List (Str × Value)) :
    List (Str × Value) := kvs.foldl insertReplace acc

/-- Modelled from the spec: the built-in merge function (§4.2) — requires
exactly one List argument whose elements are all List (result: concatenation
in argument order) or all Dict (result: left-to-right fold with
last-value-wins and first-occurrence key positions); any other shape,
including the empty list, is a FunctionArityOrTypeError. -/
def mergeFn (args : List Value) : Except DentError Value :=
  match args with
  | [Value.list elems] =>
    if elems.isEmpty then Except.error DentError.fnArgErr
    else if elems.all isListV then
      Except.ok (Value.list (elems.foldl (fun acc e => acc ++ listItems e) []))
    else if elems.all isDictV then
      Except.ok (Value.dict
        (elems.foldl (fun acc e => dictMergeOne acc (dictItems e)) []))
    else Except.error DentError.fnArgErr
  | _ => Except.error DentError.fnArgErr

/-- File-system model for imports: association of path to file text.  Paths
are treated as opaque keys (the spec's relative-path resolution collapses to
identity in this model). -/
abbrev FileSys := List (Str × Str)

/-- Lookup of a path in the modelled file system. -/
def fsLookup (fs : FileSys) (p : Str) : Option Str :=
  (fs.find? (fun e => decide (e.1 = p))).map (fun e => e.2)

/-- Name of the import built-in. -/
def importChars : Str := ['i', 'm', 'p', 'o', 'r', 't']

/-- Name of the merge built-in. -/
def mergeChars : Str := ['m', 'e', 'r', 'g', 'e']

/-- Key text of a key-position token, if it is one. -/
def tokenKey : Option Token → Option Str
  | some (Token.bare k) => some k
  | some (Token.quoted k) => some k
  | _ => Option.none

mutual

/-- Modelled from the spec: recursive-descent parse of one value (§4.2).
Containers recurse into their item parsers, `@name` resolves the named
built-in immediately after parsing its arguments, quoted strings become Str
and bare tokens are classified.  Fuel decreases on every call; the theorems
instantiate it large enough that `outOfFuel` is never the result. -/
def parseValue : Nat → FileSys → List Str → List Token →
    Except DentError (Value × List Token)
  | 0, _, _, _ => Except.error DentError.outOfFuel
  | f + 1, fs, stk, ts =>
    match ts with
    | Token.lbrace :: rest =>
      match parseDictItems f fs stk rest with
      | Except.ok kr =>
        if keysNodup kr.1 then Except.ok (Value.dict kr.1, kr.2)
        else Except.error DentError.synErr
      | Except.error e => Except.error e
    | Token.lbrack :: rest =>
      match parseListItems f fs stk rest with
      | Except.ok xr => Except.ok (Value.list xr.1, xr.2)
      | Except.error e => Except.error e
    | Token.atSign :: rest => parseCall f fs stk rest
    | Token.quoted s :: rest => Except.ok (Value.str s, rest)
    | Token.bare s :: rest => Except.ok (classifyBare s, rest)
    | _ => Except.error DentError.synErr

/-- Modelled from the spec: parse of a function call after `@` — the bare
identifier, then its argument values, then resolution via the registry
pre-seeded with the import and merge built-ins; an unregistered name is an
UnknownFunction error (§4.2, §4.3). -/
def parseCall : Nat → FileSys → List Str → List Token →
    Except DentError (Value × List Token)
  | 0, _, _, _ => Except.error DentError.outOfFuel
  | f + 1, fs, stk, ts =>
    match ts with
    | Token.bare name :: rest =>
      match parseArgs f fs stk rest with
      | Except.ok ar =>
        if name = importChars then
          match importFn f fs stk ar.1 with
          | Except.ok v => Except.ok (v, ar.2)
          | Except.error e => Except.error e
        else if name = mergeChars then
          match mergeFn ar.1 with
          | Except.ok v => Except.ok (v, ar.2)
          | Except.error e => Except.error e
        else Except.error DentError.unknownFn
      | Except.error e => Except.error e
    | _ => Except.error DentError.synErr

/-- Modelled from the spec: parse of function-call arguments — full values,
as long as the next token can begin one (§4.2). -/
def parseArgs : Nat → FileSys → List Str → List Token →
    Except DentError (List Value × List Token)
  | 0, _, _, _ => Except.error DentError.outOfFuel
  | f + 1, fs, stk, ts =>
    match ts.head? with
    | some tok =>
      if canBegin tok then
        match parseValue f fs stk ts with
        | Except.ok vr =>
          match parseArgs f fs stk vr.2 with
          | Except.ok ar => Except.ok (vr.1 :: ar.1, ar.2)
          | Except.error e => Except.error e
        | Except.error e => Except.error e
      else Except.ok ([], ts)
    | Option.none => Except.ok ([], ts)

/-- Modelled from the spec: parse of list elements up to the closing
bracket (§4.2). -/
def parseListItems : Nat → FileSys → List Str → List Token →
    Except DentError (List Value × List Token)
  | 0, _, _, _ => Except.error DentError.outOfFuel
  | f + 1, fs, stk, ts =>
    if ts.head? = some Token.rbrack then Except.ok ([], ts.tail)
    else if ts.isEmpty then Except.error DentError.synErr
    else
      match parseValue f fs stk ts with
      | Except.ok vr =>
        match parseListItems f fs stk vr.2 with
        | Except.ok xr => Except.ok (vr.1 :: xr.1, xr.2)
        | Except.error e => Except.error e
      | Except.error e => Except.error e

/-- Modelled from the spec: parse of dict entries `key : value` up to the
closing brace; keys are identifiers or quoted strings (§4.2). -/
def parseDictItems : Nat → FileSys → List Str → List Token →
    Except DentError (List (Str × Value) × List Token)
  | 0, _, _, _ => Except.error DentError.outOfFuel
  | f + 1, fs, stk, ts =>
    if ts.head? = some Token.rbrace then Except.ok ([], ts.tail)
    else
      match tokenKey ts.head? with
      | some k =>
        if ts.tail.head? = some Token.colon then
          match parseValue f fs stk ts.tail.tail with
          | Except.ok vr =>
            match parseDictItems f fs stk vr.2 with
            | Except.ok kr => Except.ok ((k, vr.1) :: kr.1, kr.2)
            | Except.error e => Except.error e
          | Except.error e => Except.error e
        else Except.error DentError.synErr
      | Option.none => Except.error DentError.synErr

/-- Modelled from the spec: top-level parse — exactly one value, trailing
tokens are a SyntaxError (§4.2). -/
def parseTop : Nat → FileSys → List Str → List Token → Except DentError Value
  | 0, _, _, _ => Except.error DentError.outOfFuel
  | f + 1, fs, stk, ts =>
    match parseValue f fs stk ts with
    | Except.ok vr => if vr.2.isEmpty then Except.ok vr.1 else Except.error DentError.synErr
    | Except.error e => Except.error e

/-- Modelled from the spec: the built-in import function (§4.2) — exactly
one Str argument naming a file; a path already on the in-progress stack is
an ImportCycleError, checked before any recursion; a path absent from the
file system is an ImportIOError; otherwise the file is parsed with the full
pipeline with the path pushed on the stack. -/
def importFn : Nat → FileSys → List Str → List Value → Except DentError Value
  | 0, _, _, _ => Except.error DentError.outOfFuel
  | f + 1, fs, stk, args =>
    match args with
    | [Value.str p] =>
      if p ∈ stk then Except.error DentError.importCycle
      else
        match fsLookup fs p with
        | Option.none => Except.error DentError.importMissing
        | some txt =>
          match lex txt with
          | Except.ok ts2 => parseTop f fs (p :: stk) ts2
          | Except.error e => Except.error e
    | _ => Except.error DentError.fnArgErr

end

/-- Total file-system text budget, used to size the parsing fuel. -/
def fsBudget (fs : FileSys) : Nat :=
  (fs.map (fun e => 2 * e.2.length + 16)).sum

/-- Modelled from the spec: parse of an in-memory buffer with rich error
reporting (§4.4); the recursion fuel is sized from the input and the
modelled file system. -/
def dentParseE (input : Str) (fs : FileSys) : Except DentError Value :=
  match lex input with
  | Except.ok ts =>
    parseTop (2 * ts.length + fsBudget fs + 16) fs [] ts
  | Except.error e => Except.error e

/-- The header operation `dent_parse` (cdent.h line 12): the boundary erases
the error detail to presence or absence of a handle. -/
def dent_parse (input : Str) (fs : FileSys) : Option Value :=
  (dentParseE input fs).toOption

/-- Modelled from the spec: parse of a named file with explicit fuel — the
file is read from the modelled file system and parsed with its own path as
the initial import stack (§4.4). -/
def dentParseFileE (fuel : Nat) (fs : FileSys) (p : Str) : Except DentError Value :=
  match fsLookup fs p with
  | Option.none => Except.error DentError.importMissing
  | some txt =>
    match lex txt with
    | Except.ok ts => parseTop fuel fs [p] ts
    | Except.error e => Except.error e

theorem serializeV_head (t : Value) :
    ∃ tok tl, serializeV t = tok :: tl ∧ canBegin tok = true := by
  cases t with
  | none => exact ⟨_, _, rfl, rfl⟩
  | bool b => cases b <;> exact ⟨_, _, rfl, rfl⟩
  | int n => exact ⟨_, _, rfl, rfl⟩
  | float m s => exact ⟨_, _, rfl, rfl⟩
  | str s =>
    rw [serializeV]
    split
    · exact ⟨_, _, rfl, rfl⟩
    · exact ⟨_, _, rfl, rfl⟩
  | list xs => exact ⟨_, _, rfl, rfl⟩
  | dict kvs => exact ⟨_, _, rfl, rfl⟩

theorem serializeV_ne_nil (t : Value) : serializeV t ≠ [] := by
  obtain ⟨tok, tl, htl, _⟩ := serializeV_head t
  rw [htl]
  simp

theorem tokenKey_serKey (k : Str) : tokenKey (some (serKey k)) = some k := by
  rw [serKey]
  split <;> rfl

theorem serKey_ne_rbrace (k : Str) : ¬(serKey k = Token.rbrace) := by
  rw [serKey]
  split <;> simp

theorem parse_serialize :
    ∀ f : Nat,
      (∀ (t : Value) (R : List Token) (fs : FileSys) (stk : List Str),
        wfV t = true → 2 * (serializeV t).length ≤ f →
        parseValue f fs stk (serializeV t ++ R) = Except.ok (t, R)) ∧
      (∀ (xs : List Value) (R : List Token) (fs : FileSys) (stk : List Str),
        wfL xs = true → 2 * ((serializeL xs).length + 1) ≤ f →
        parseListItems f fs stk (serializeL xs ++ Token.rbrack :: R) =
          Except.ok (xs, R)) ∧
      (∀ (kvs : List (Str × Value)) (R : List Token) (fs : FileSys)
          (stk : List Str),
        wfD kvs = true → 2 * ((serializeD kvs).length + 1) ≤ f →
        parseDictItems f fs stk (serializeD kvs ++ Token.rbrace :: R) =
          Except.ok (kvs, R)) := by
  intro f
  induction f with
  | zero =>
    refine ⟨fun t R fs stk hwf hfuel => ?_, fun xs R fs stk hwf hfuel => ?_,
      fun kvs R fs stk hwf hfuel => ?_⟩
    · exfalso
      have h0 : (serializeV t).length = 0 := by omega
      exact serializeV_ne_nil t (List.length_eq_zero.mp h0)
    · omega
    · omega
  | succ f ih =>
    obtain ⟨ihV, ihL, ihD⟩ := ih
    refine ⟨fun t R fs stk hwf hfuel => ?_, fun xs R fs stk hwf hfuel => ?_,
      fun kvs R fs stk hwf hfuel => ?_⟩
    · cases t with
      | none => simp [wfV] at hwf
      | bool b =>
        cases b
        · rw [serializeV, List.singleton_append, parseValue, classifyBare_false]
        · rw [serializeV, List.singleton_append, parseValue, classifyBare_true]
      | int n =>
        rw [serializeV, List.singleton_append, parseValue, classifyBare_int]
      | float m s =>
        rw [serializeV, List.singleton_append, parseValue, classifyBare_float]
      | str s =>
        rw [serializeV]
        split
        · rename_i hcond
          rw [Bool.and_eq_true, Bool.and_eq_true] at hcond
          rw [List.singleton_append, parseValue,
            classifyBare_of_classifiesAsStr hcond.2]
        · rw [List.singleton_append, parseValue]
      | list xs =>
        rw [wfV] at hwf
        rw [serializeV] at hfuel ⊢
        simp only [List.length_cons, List.length_append,
          List.length_singleton] at hfuel
        rw [List.cons_append, List.append_assoc, List.singleton_append,
          parseValue, ihL xs R fs stk hwf (by omega)]
      | dict kvs =>
        rw [wfV, Bool.and_eq_true] at hwf
        rw [serializeV] at hfuel ⊢
        simp only [List.length_cons, List.length_append,
          List.length_singleton] at hfuel
        rw [List.cons_append, List.append_assoc, List.singleton_append,
          parseValue, ihD kvs R fs stk hwf.2 (by omega)]
        show (if keysNodup kvs = true then Except.ok (Value.dict kvs, R)
          else Except.error DentError.synErr) = Except.ok (Value.dict kvs, R)
        rw [if_pos hwf.1]
    · cases xs with
      | nil =>
        have hc : (Token.rbrack :: R).head? = some Token.rbrack := rfl
        rw [serializeL, List.nil_append, parseListItems, if_pos hc]
        rfl
      | cons x xs =>
        rw [wfL, Bool.and_eq_true] at hwf
        obtain ⟨tok, tl, htl, hcb⟩ := serializeV_head x
        have hlen1 : 1 ≤ (serializeV x).length := by rw [htl]; simp
        rw [serializeL] at hfuel ⊢
        simp only [List.length_append] at hfuel
        rw [List.append_assoc]
        have hh : (serializeV x ++ (serializeL xs ++ Token.rbrack :: R)).head? =
            some tok := by
          rw [htl]
          rfl
        have hcond1 : ¬ ((serializeV x ++
            (serializeL xs ++ Token.rbrack :: R)).head? = some Token.rbrack) := by
          rw [hh]
          simp only [Option.some.injEq]
          intro hq
          rw [hq] at hcb
          simp [canBegin] at hcb
        have hcond2 : ¬ ((serializeV x ++
            (serializeL xs ++ Token.rbrack :: R)).isEmpty = true) := by
          rw [htl]
          simp
        rw [parseListItems, if_neg hcond1, if_neg hcond2,
          ihV x _ fs stk hwf.1 (by omega)]
        show (match parseListItems f fs stk
            (serializeL xs ++ Token.rbrack :: R) with
          | Except.ok xr => Except.ok (x :: xr.1, xr.2)
          | Except.error e => Except.error e) = Except.ok (x :: xs, R)
        rw [ihL xs R fs stk hwf.2 (by omega)]
    · cases kvs with
      | nil =>
        have hc : (Token.rbrace :: R).head? = some Token.rbrace := rfl
        rw [serializeD, List.nil_append, parseDictItems, if_pos hc]
        rfl
      | cons kv kvs =>
        obtain ⟨k, v⟩ := kv
        rw [wfD, Bool.and_eq_true] at hwf
        rw [serializeD] at hfuel ⊢
        simp only [List.length_cons, List.length_append] at hfuel
        rw [List.cons_append, List.cons_append, List.append_assoc]
        have hcond1 : ¬ ((serKey k :: Token.colon ::
            (serializeV v ++ (serializeD kvs ++ Token.rbrace :: R))).head? =
            some Token.rbrace) := by
          rw [List.head?_cons]
          simp only [Option.some.injEq]
          exact serKey_ne_rbrace k
        rw [parseDictItems, if_neg hcond1]
        show (match tokenKey (some (serKey k)) with
          | some key =>
            if (Token.colon ::
                (serializeV v ++ (serializeD kvs ++ Token.rbrace :: R))).head? =
                some Token.colon then
              match parseValue f fs stk
                  (serializeV v ++ (serializeD kvs ++ Token.rbrace :: R)) with
              | Except.ok vr =>
                match parseDictItems f fs stk vr.2 with
                | Except.ok kr => Except.ok ((key, vr.1) :: kr.1, kr.2)
                | Except.error e => Except.error e
              | Except.error e => Except.error e
            else Except.error DentError.synErr
          | Option.none => Except.error DentError.synErr) =
          Except.ok ((k, v) :: kvs, R)
        have hck : (Token.colon ::
            (serializeV v ++ (serializeD kvs ++ Token.rbrace :: R))).head? =
            some Token.colon := rfl
        rw [tokenKey_serKey]
        show (if (Token.colon ::
            (serializeV v ++ (serializeD kvs ++ Token.rbrace :: R))).head? =
            some Token.colon then
          match parseValue f fs stk
              (serializeV v ++ (serializeD kvs ++ Token.rbrace :: R)) with
          | Except.ok vr =>
            match parseDictItems f fs stk vr.2 with
            | Except.ok kr => Except.ok ((k, vr.1) :: kr.1, kr.2)
            | Except.error e => Except.error e
          | Except.error e => Except.error e
        else Except.error DentError.synErr) = Except.ok ((k, v) :: kvs, R)
        rw [if_pos hck, ihV v _ fs stk hwf.1 (by omega)]
        show (match parseDictItems f fs stk
            (serializeD kvs ++ Token.rbrace :: R) with
          | Except.ok kr => Except.ok ((k, v) :: kr.1, kr.2)
          | Except.error e => Except.error e) = Except.ok ((k, v) :: kvs, R)
        rw [ihD kvs R fs stk hwf.2 (by omega)]

theorem dent_roundtrip (t : Value) (hwf : wfV t = true) :
    dentParseE (dent_to_str t) [] = Except.ok t := by
  rw [dentParseE, dent_to_str,
    lex_render (serializeV t)
      ((serializeV_wfTokens (sizeOf t)).1 t (Nat.le_refl _))]
  show parseTop (2 * (serializeV t).length + fsBudget [] + 16) [] []
    (serializeV t) = Except.ok t
  have hF : 2 * (serializeV t).length + fsBudget [] + 16 =
      (2 * (serializeV t).length + 15) + 1 := by
    simp [fsBudget]
  have hS := (parse_serialize (2 * (serializeV t).length + 15)).1 t [] [] []
    hwf (by omega)
  rw [List.append_nil] at hS
  rw [hF, parseTop, hS]
  rfl

theorem classifyBare_ne_none (s : Str) : classifyBare s ≠ Value.none := by
  rw [classifyBare]
  split
  · exact fun h => Value.noConfusion h
  · split
    · exact fun h => Value.noConfusion h
    · split
      · exact fun h => Value.noConfusion h
      · split
        · exact fun h => Value.noConfusion h
        · exact fun h => Value.noConfusion h

theorem mergeFn_all_lists (lss : List (List Value)) (hne : lss ≠ []) :
    mergeFn [Value.list (lss.map Value.list)] =
      Except.ok (Value.list lss.flatten) := by
  have hfold : ∀ (L : List (List Value)) (acc : List Value),
      (L.map Value.list).foldl (fun acc e => acc ++ listItems e) acc =
      acc ++ L.flatten := by
    intro L
    induction L with
    | nil => intro acc; simp
    | cons l L ih =>
      intro acc
      simp only [List.map_cons, List.foldl_cons, List.flatten_cons]
      rw [ih, List.append_assoc]
      rfl
  rw [mergeFn, if_neg, if_pos]
  · rw [hfold lss [], List.nil_append]
  · rw [List.all_eq_true]
    intro x hx
    rw [List.mem_map] at hx
    obtain ⟨l, _, rfl⟩ := hx
    rfl
  · intro hemp
    exact hne (List.map_eq_nil_iff.mp (List.isEmpty_iff.mp hemp))

/-- First-match lookup in a dict's entry list (the dent_get semantics on a
Dict). -/
def dictLookup (kvs : List (Str × Value)) (k : Str) : Option Value :=
  (kvs.find? (fun p => decide (p.1 = k))).map (fun p => p.2)

/-- Value of the last entry carrying the given key: later entries take
precedence over earlier ones. -/
def lastLookup : List (Str × Value) → Str → Option Value
  | [], _ => Option.none
  | (k0, v0) :: rest, k =>
    match lastLookup rest k with
    | some v => some v
    | Option.none => if k = k0 then some v0 else Option.none

/-- Key list of a dict's entries, in order. -/
def keysOf (kvs : List (Str × Value)) : List Str := kvs.map Prod.fst

/-- Deduplication of a key list keeping each key at its first occurrence. -/
def firstOccur (ks : List Str) : List Str :=
  ks.foldl (fun acc k => if k ∈ acc then acc else acc ++ [k]) []

theorem dictLookup_cons_eq (k0 : Str) (v0 : Value) (rest : List (Str × Value)) :
    dictLookup ((k0, v0) :: rest) k0 = some v0 := by
  rw [dictLookup, List.find?_cons_of_pos _ (by simp)]
  rfl

theorem dictLookup_cons_ne {k0 : Str} (v0 : Value) (rest : List (Str × Value))
    {k' : Str} (h : ¬(k0 = k')) :
    dictLookup ((k0, v0) :: rest) k' = dictLookup rest k' := by
  rw [dictLookup, List.find?_cons_of_neg _ (by simp [h]), dictLookup]

theorem insertReplace_lookup (acc : List (Str × Value)) :
    ∀ (ka : Str) (va : Value) (k' : Str),
      dictLookup (insertReplace acc (ka, va)) k' =
        if k' = ka then some va else dictLookup acc k' := by
  induction acc with
  | nil =>
    intro ka va k'
    rw [insertReplace]
    by_cases h : k' = ka
    · subst h
      rw [if_pos rfl, dictLookup_cons_eq]
    · rw [if_neg h, dictLookup_cons_ne va [] (fun hh => h hh.symm)]
  | cons p rest ih =>
    intro ka va k'
    obtain ⟨k0, v0⟩ := p
    rw [insertReplace]
    by_cases h0 : k0 = ka
    · rw [if_pos (by exact h0)]
      subst h0
      by_cases h' : k' = k0
      · subst h'
        rw [if_pos rfl, dictLookup_cons_eq]
      · rw [if_neg h', dictLookup_cons_ne va rest (fun hh => h' hh.symm),
          dictLookup_cons_ne v0 rest (fun hh => h' hh.symm)]
  -- third branch: key differs from the head
    · rw [if_neg (by exact h0)]
      by_cases h' : k' = k0
      · subst h'
        rw [dictLookup_cons_eq, if_neg h0, dictLookup_cons_eq]
      · rw [dictLookup_cons_ne v0 (insertReplace rest (ka, va))
            (fun hh => h' hh.symm), ih ka va k']
        by_cases h'' : k' = ka
        · rw [if_pos h'', if_pos h'']
        · rw [if_neg h'', if_neg h'',
            dictLookup_cons_ne v0 rest (fun hh => h' hh.symm)]

theorem foldIR_lookup (kvs : List (Str × Value)) :
    ∀ (acc : List (Str × Value)) (k : Str),
      dictLookup (kvs.foldl insertReplace acc) k =
        match lastLookup kvs k with
        | some v => some v
        | Option.none => dictLookup acc k := by
  induction kvs with
  | nil => intro acc k; rfl
  | cons p kvs ih =>
    intro acc k
    obtain ⟨k0, v0⟩ := p
    rw [List.foldl_cons, ih (insertReplace acc (k0, v0)) k,
      insertReplace_lookup acc k0 v0 k, lastLookup]
    cases hl : lastLookup kvs k with
    | some v => rfl
    | none =>
      by_cases hk : k = k0
      · rw [if_pos hk, if_pos hk]
      · rw [if_neg hk, if_neg hk]

theorem foldIR_lookup_nil (kvs : List (Str × Value)) (k : Str) :
    dictLookup (kvs.foldl insertReplace []) k = lastLookup kvs k := by
  rw [foldIR_lookup kvs [] k]
  cases lastLookup kvs k <;> rfl

theorem insertReplace_keys (acc : List (Str × Value)) :
    ∀ (ka : Str) (va : Value),
      keysOf (insertReplace acc (ka, va)) =
        if ka ∈ keysOf acc then keysOf acc else keysOf acc ++ [ka] := by
  induction acc with
  | nil =>
    intro ka va
    simp [insertReplace, keysOf]
  | cons p rest ih =>
    intro ka va
    obtain ⟨k0, v0⟩ := p
    rw [insertReplace]
    by_cases h0 : k0 = ka
    · subst h0
      rw [if_pos rfl]
      have hmem : k0 ∈ keysOf ((k0, v0) :: rest) := by
        show k0 ∈ k0 :: keysOf rest
        exact List.mem_cons_self _ _
      rw [if_pos hmem]
      rfl
    · rw [if_neg h0]
      have hk : keysOf ((k0, v0) :: insertReplace rest (ka, va)) =
          k0 :: keysOf (insertReplace rest (ka, va)) := rfl
      have hk2 : keysOf ((k0, v0) :: rest) = k0 :: keysOf rest := rfl
      rw [hk, hk2, ih ka va]
      by_cases hm : ka ∈ keysOf rest
      · rw [if_pos hm, if_pos (by simp [hm])]
      · rw [if_neg hm, if_neg (by
          simp only [List.mem_cons]
          rintro (hh | hh)
          · exact h0 hh.symm
          · exact hm hh), List.cons_append]

theorem foldIR_keys (kvs : List (Str × Value)) :
    ∀ acc : List (Str × Value),
      keysOf (kvs.foldl insertReplace acc) =
        (keysOf kvs).foldl (fun ks k => if k ∈ ks then ks else ks ++ [k])
          (keysOf acc) := by
  induction kvs with
  | nil => intro acc; rfl
  | cons p kvs ih =>
    intro acc
    obtain ⟨k0, v0⟩ := p
    rw [List.foldl_cons, ih (insertReplace acc (k0, v0))]
    have hks : keysOf ((k0, v0) :: kvs) = k0 :: keysOf kvs := rfl
    rw [hks, List.foldl_cons, insertReplace_keys acc k0 v0]

theorem foldIR_keys_nil (kvs : List (Str × Value)) :
    keysOf (kvs.foldl insertReplace []) = firstOccur (keysOf kvs) := by
  rw [foldIR_keys kvs [], firstOccur]
  rfl

theorem mergeFn_all_dicts (ds : List (List (Str × Value))) (hne : ds ≠ []) :
    mergeFn [Value.list (ds.map Value.dict)] =
      Except.ok (Value.dict (ds.flatten.foldl insertReplace [])) := by
  have hfold : ∀ (D : List (List (Str × Value))) (acc : List (Str × Value)),
      (D.map Value.dict).foldl (fun acc e => dictMergeOne acc (dictItems e))
        acc = D.flatten.foldl insertReplace acc := by
    intro D
    induction D with
    | nil => intro acc; rfl
    | cons d D ih =>
      intro acc
      simp only [List.map_cons, List.foldl_cons, List.flatten_cons]
      rw [ih, List.foldl_append]
      rfl
  obtain ⟨d0, ds', rfl⟩ := List.exists_cons_of_ne_nil hne
  rw [mergeFn, if_neg, if_neg, if_pos]
  · rw [hfold (d0 :: ds') []]
  · rw [List.all_eq_true]
    intro x hx
    rw [List.mem_map] at hx
    obtain ⟨l, _, rfl⟩ := hx
    rfl
  · intro hall
    rw [List.all_eq_true] at hall
    have := hall (Value.dict d0)
      (List.mem_map_of_mem _ (List.mem_cons_self _ _))
    simp [isListV] at this
  · intro hemp
    simp at hemp

theorem parseArgs_quoted (f : Nat) (fs : FileSys) (stk : List Str) (p : Str) :
    parseArgs (f + 2) fs stk [Token.quoted p] = Except.ok ([Value.str p], []) := by
  rw [parseArgs]
  show (match parseValue (f + 1) fs stk [Token.quoted p] with
    | Except.ok vr =>
      match parseArgs (f + 1) fs stk vr.2 with
      | Except.ok ar => Except.ok (vr.1 :: ar.1, ar.2)
      | Except.error e => Except.error e
    | Except.error e => Except.error e) = Except.ok ([Value.str p], [])
  rw [parseValue]
  show (match parseArgs (f + 1) fs stk [] with
    | Except.ok ar => Except.ok (Value.str p :: ar.1, ar.2)
    | Except.error e => Except.error e) = Except.ok ([Value.str p], [])
  rw [parseArgs]
  rfl

theorem importFn_stack (f : Nat) (fs : FileSys) (stk : List Str) (p : Str)
    (hp : p ∈ stk) :
    importFn (f + 1) fs stk [Value.str p] = Except.error DentError.importCycle := by
  rw [importFn, if_pos hp]

theorem parseTop_import (f : Nat) (fs : FileSys) (stk : List Str) (p : Str) :
    parseTop (f + 5) fs stk
      [Token.atSign, Token.bare importChars, Token.quoted p] =
      match importFn (f + 2) fs stk [Value.str p] with
      | Except.ok v => Except.ok v
      | Except.error e => Except.error e := by
  simp only [parseTop, parseValue, parseCall, parseArgs_quoted f fs stk p]
  cases himp : importFn (f + 2) fs stk [Value.str p] with
  | ok v => rfl
  | error e => rfl

/-- Header predicate dent_is_none (cdent.h line 22): pure, total variant
test. -/
def dent_is_none : Value → Bool
  | Value.none => true
  | _ => false

/-- Header predicate dent_is_str (cdent.h line 24). -/
def dent_is_str : Value → Bool
  | Value.str _ => true
  | _ => false

/-- Header predicate dent_is_bool (cdent.h line 26). -/
def dent_is_bool : Value → Bool
  | Value.bool _ => true
  | _ => false

/-- Header predicate dent_is_int (cdent.h line 28). -/
def dent_is_int : Value → Bool
  | Value.int _ => true
  | _ => false

/-- Header predicate dent_is_float (cdent.h line 30). -/
def dent_is_float : Value → Bool
  | Value.float _ _ => true
  | _ => false

/-- Header predicate dent_is_list (cdent.h line 32). -/
def dent_is_list : Value → Bool
  | Value.list _ => true
  | _ => false

/-- Header predicate dent_is_dict (cdent.h line 34). -/
def dent_is_dict : Value → Bool
  | Value.dict _ => true
  | _ => false

/-- Modelled from the spec and header: dent_len (cdent.h line 36) — child
count for List/Dict, character count for Str; the uintptr_t return type
leaves no out-of-band failure, modelled as 0 on scalar kinds. -/
def dent_len : Value → Nat
  | Value.list xs => xs.length
  | Value.dict kvs => kvs.length
  | Value.str s => s.length
  | _ => 0

/-- Modelled from the spec and header: dent_get (cdent.h line 18) — the C
signature returns a single borrowed pointer, so NULL (here none) is the
outcome both when the value is not a Dict and when the key is absent. -/
def dent_get : Value → Str → Option Value
  | Value.dict kvs, k => dictLookup kvs k
  | _, _ => Option.none

/-- Modelled from the spec and header: dent_get_index (cdent.h line 20) —
NULL both on a non-List value and on an out-of-range index. -/
def dent_get_index : Value → Nat → Option Value
  | Value.list xs, i => xs[i]?
  | _, _ => Option.none

/-- Modelled from the spec and header: dent_as_str (cdent.h line 40) — a
fresh caller-owned copy of the text, or NULL (none) when the value is not a
Str. -/
def dent_as_str : Value → Option Str
  | Value.str s => some s
  | _ => Option.none

/-- Modelled from the spec and header: dent_as_bool (cdent.h line 44) — the
C return type is a bare bool, so the mismatch sentinel necessarily coincides
with one valid boolean; the concrete sentinel is not determined by the
available sources and is modelled as false. -/
def dent_as_bool : Value → Bool
  | Value.bool b => b
  | _ => false

/-- Modelled from the spec and header: dent_as_int (cdent.h line 46) — the
C return type is a bare int64_t, so the mismatch sentinel necessarily
coincides with one valid integer; modelled as 0. -/
def dent_as_int : Value → Int
  | Value.int n => n
  | _ => 0

/-- Modelled from the spec and header: dent_as_float (cdent.h line 48) —
the C return type is a bare double, so the mismatch sentinel coincides with
one valid float; modelled as the zero float. -/
def dent_as_float : Value → Int × Nat
  | Value.float m s => (m, s)
  | _ => (0, 0)

/-- Observable engine-API events of one query-tool run (src/unnamed/part_000):
navigation accessor calls with the value they were applied to, the
serialization call, the print, and the two release operations. -/
inductive Ev where
  | getIndex (v : Value) (i : Nat)
  | get (v : Value) (k : Str)
  | toStr (v : Value)
  | print (s : Str)
  | freeStr
  | free

/-- Result of one query-tool run: success flag, emitted API events in order,
and the printed output if any. -/
structure CliRes where
  ok : Bool
  events : List Ev
  output : Option Str

/-- The C `isspace` class used by strtoul. -/
def isSpaceC (c : Char) : Bool :=
  decide (c = ' ' ∨ c = '\t' ∨ c = '\n' ∨ c = '\x0b' ∨ c = '\x0c' ∨ c = '\r')

/-- Conversion part of strtoul base 10: the longest digit prefix, clamped to
the unsigned 64-bit maximum on overflow. -/
def strtoulConv (r : Str) : Nat :=
  if natVal (r.takeWhile isDigitC) < 2 ^ 64 then natVal (r.takeWhile isDigitC)
  else 2 ^ 64 - 1

/-- Model of C `strtoul(s, NULL, 10)` as called at part_000 line 74: skip
leading whitespace, accept one optional sign, convert the longest digit
prefix; when no digits are present the result is 0; a minus sign negates in
unsigned 64-bit arithmetic. -/
def strtoul10 (s : Str) : Nat :=
  if (s.dropWhile isSpaceC).head? = some '+' then
    strtoulConv (s.dropWhile isSpaceC).tail
  else if (s.dropWhile isSpaceC).head? = some '-' then
    (2 ^ 64 - strtoulConv (s.dropWhile isSpaceC).tail) % 2 ^ 64
  else strtoulConv (s.dropWhile isSpaceC)

/-- Events and result of the successful exit path of the query tool
(part_000 lines 152-162): serialize the current value, print it, release
the string, release the tree. -/
def cliDone (cur : Value) : CliRes :=
  ⟨true, [Ev.toStr cur, Ev.print (dent_to_str cur), Ev.freeStr, Ev.free],
    some (dent_to_str cur)⟩

/-- An error exit of the query tool: EXIT_FAILURE with the given events; no
release operation is performed on these paths (part_000 lines 56-149). -/
def cliFail (evs : List Ev) : CliRes := ⟨false, evs, Option.none⟩

/-- Prefix events onto a run's result. -/
def cliPre (evs : List Ev) (r : CliRes) : CliRes :=
  ⟨r.ok, evs ++ r.events, r.output⟩

/-- The query loop of the command-line tool, embedded from part_000
lines 50-150.  The fuel decreases on every iteration; one unit per consumed
query character suffices, and the wrapper supplies query length plus one. -/
def cliLoop : Nat → Value → Str → CliRes
  | 0, _, _ => cliFail []
  | _ + 1, cur, [] => cliDone cur
  | f + 1, cur, c :: rest =>
    if c = '[' then
      if dent_is_list cur = false then cliFail []
      else
        if (rest.dropWhile (fun x => !(x = ']'))).isEmpty then cliFail []
        else
          if dent_len cur ≤ strtoul10 (rest.takeWhile (fun x => !(x = ']'))) then
            cliFail []
          else
            cliPre [Ev.getIndex cur
                (strtoul10 (rest.takeWhile (fun x => !(x = ']'))))]
              (cliLoop f
                ((dent_get_index cur
                  (strtoul10 (rest.takeWhile (fun x => !(x = ']'))))).getD
                  Value.none)
                (rest.dropWhile (fun x => !(x = ']'))).tail)
    else if c = ' ' then cliLoop f cur rest
    else if c = '.' then
      if dent_is_dict cur = false then cliFail []
      else if rest.isEmpty then cliDone cur
      else if rest.head? = some '\"' then
        if (rest.tail.dropWhile (fun x => !(x = '\"'))).isEmpty then cliFail []
        else
          match dent_get cur (rest.tail.takeWhile (fun x => !(x = '\"'))) with
          | some next =>
            cliPre [Ev.get cur (rest.tail.takeWhile (fun x => !(x = '\"')))]
              (cliLoop f next (rest.tail.dropWhile (fun x => !(x = '\"'))))
          | Option.none =>
            cliFail [Ev.get cur (rest.tail.takeWhile (fun x => !(x = '\"')))]
      else
        match dent_get cur (rest.takeWhile
            (fun x => !(x = ' ') && !(x = '[') && !(x = '.'))) with
        | some next =>
          cliPre [Ev.get cur (rest.takeWhile
              (fun x => !(x = ' ') && !(x = '[') && !(x = '.')))]
            (cliLoop f next (rest.dropWhile
              (fun x => !(x = ' ') && !(x = '[') && !(x = '.'))))
        | Option.none =>
          cliFail [Ev.get cur (rest.takeWhile
              (fun x => !(x = ' ') && !(x = '[') && !(x = '.')))]
    else cliFail []

/-- The query tool's main after the parse step (part_000 lines 39-163): a
failed parse prints an error and exits; a successful parse runs the query
loop on the root value. -/
def cliMain (parsed : Option Value) (q : Str) : CliRes :=
  match parsed with
  | Option.none => cliFail []
  | some v => cliLoop (q.length + 1) v q

/-- Tree-release events in an event list. -/
def freeCount (evs : List Ev) : Nat :=
  (evs.filter (fun e => match e with | Ev.free => true | _ => false)).length

/-- String-release events in an event list. -/
def freeStrCount (evs : List Ev) : Nat :=
  (evs.filter (fun e => match e with | Ev.freeStr => true | _ => false)).length

/-- Guard obligation of one navigation-accessor event: an index access
requires a List and an in-bounds index, a key access requires a Dict. -/
def evGuardOk : Ev → Prop
  | Ev.getIndex v i => dent_is_list v = true ∧ i < dent_len v
  | Ev.get v _ => dent_is_dict v = true
  | _ => True

theorem cliLoop_counts : ∀ f : Nat, ∀ (cur : Value) (q : Str),
    freeCount (cliLoop f cur q).events =
      (if (cliLoop f cur q).ok then 1 else 0) ∧
    freeStrCount (cliLoop f cur q).events =
      (if (cliLoop f cur q).ok then 1 else 0) := by
  intro f
  induction f with
  | zero => intro cur q; exact ⟨rfl, rfl⟩
  | succ f ih =>
    intro cur q
    cases q with
    | nil => exact ⟨rfl, rfl⟩
    | cons c rest =>
      rw [cliLoop]
      by_cases h1 : c = '['
      · rw [if_pos h1]
        by_cases h2 : dent_is_list cur = false
        · rw [if_pos h2]
          exact ⟨rfl, rfl⟩
        · rw [if_neg h2]
          by_cases h3 : (rest.dropWhile (fun x => !(x = ']'))).isEmpty = true
          · rw [if_pos h3]
            exact ⟨rfl, rfl⟩
          · rw [if_neg h3]
            by_cases h4 : dent_len cur ≤
                strtoul10 (rest.takeWhile (fun x => !(x = ']')))
            · rw [if_pos h4]
              exact ⟨rfl, rfl⟩
            · rw [if_neg h4]
              exact ih _ _
      · rw [if_neg h1]
        by_cases h5 : c = ' '
        · rw [if_pos h5]
          exact ih _ _
        · rw [if_neg h5]
          by_cases h6 : c = '.'
          · rw [if_pos h6]
            by_cases h7 : dent_is_dict cur = false
            · rw [if_pos h7]
              exact ⟨rfl, rfl⟩
            · rw [if_neg h7]
              by_cases h8 : rest.isEmpty = true
              · rw [if_pos h8]
                exact ⟨rfl, rfl⟩
              · rw [if_neg h8]
                by_cases h9 : rest.head? = some '\"'
                · rw [if_pos h9]
                  by_cases h10 : (rest.tail.dropWhile
                      (fun x => !(x = '\"'))).isEmpty = true
                  · rw [if_pos h10]
                    exact ⟨rfl, rfl⟩
                  · rw [if_neg h10]
                    cases hget : dent_get cur
                        (rest.tail.takeWhile (fun x => !(x = '\"'))) with
                    | some next => exact ih _ _
                    | none => exact ⟨rfl, rfl⟩
                · rw [if_neg h9]
                  cases hget : dent_get cur (rest.takeWhile
                      (fun x => !(x = ' ') && !(x = '[') && !(x = '.'))) with
                  | some next => exact ih _ _
                  | none => exact ⟨rfl, rfl⟩
          · rw [if_neg h6]
            exact ⟨rfl, rfl⟩

theorem bool_true_of_not_false {b : Bool} (h : ¬ b = false) : b = true := by
  cases b
  · exact absurd rfl h
  · rfl

theorem cliLoop_guards : ∀ f : Nat, ∀ (cur : Value) (q : Str) (e : Ev),
    e ∈ (cliLoop f cur q).events → evGuardOk e := by
  intro f
  induction f with
  | zero =>
    intro cur q e he
    simp [cliLoop, cliFail] at he
  | succ f ih =>
    intro cur q e he
    cases q with
    | nil =>
      simp only [cliLoop, cliDone] at he
      simp at he
      rcases he with rfl | rfl | rfl | rfl <;> trivial
    | cons c rest =>
      rw [cliLoop] at he
      by_cases h1 : c = '['
      · rw [if_pos h1] at he
        by_cases h2 : dent_is_list cur = false
        · rw [if_pos h2] at he
          simp [cliFail] at he
        · rw [if_neg h2] at he
          by_cases h3 : (rest.dropWhile (fun x => !(x = ']'))).isEmpty = true
          · rw [if_pos h3] at he
            simp [cliFail] at he
          · rw [if_neg h3] at he
            by_cases h4 : dent_len cur ≤
                strtoul10 (rest.takeWhile (fun x => !(x = ']')))
            · rw [if_pos h4] at he
              simp [cliFail] at he
            · rw [if_neg h4] at he
              simp only [cliPre, List.singleton_append, List.mem_cons] at he
              rcases he with rfl | he'
              · exact ⟨bool_true_of_not_false h2, by omega⟩
              · exact ih _ _ e he'
      · rw [if_neg h1] at he
        by_cases h5 : c = ' '
        · rw [if_pos h5] at he
          exact ih _ _ e he
        · rw [if_neg h5] at he
          by_cases h6 : c = '.'
          · rw [if_pos h6] at he
            by_cases h7 : dent_is_dict cur = false
            · rw [if_pos h7] at he
              simp [cliFail] at he
            · rw [if_neg h7] at he
              by_cases h8 : rest.isEmpty = true
              · rw [if_pos h8] at he
                simp only [cliDone] at he
                simp at he
                rcases he with rfl | rfl | rfl | rfl <;> trivial
              · rw [if_neg h8] at he
                by_cases h9 : rest.head? = some '\"'
                · rw [if_pos h9] at he
                  by_cases h10 : (rest.tail.dropWhile
                      (fun x => !(x = '\"'))).isEmpty = true
                  · rw [if_pos h10] at he
                    simp [cliFail] at he
                  · rw [if_neg h10] at he
                    cases hget : dent_get cur
                        (rest.tail.takeWhile (fun x => !(x = '\"'))) with
                    | some next =>
                      rw [hget] at he
                      simp only [cliPre, List.singleton_append,
                        List.mem_cons] at he
                      rcases he with rfl | he'
                      · exact bool_true_of_not_false h7
                      · exact ih _ _ e he'
                    | none =>
                      rw [hget] at he
                      simp only [cliFail, List.mem_singleton] at he
                      subst he
                      exact bool_true_of_not_false h7
                · rw [if_neg h9] at he
                  cases hget : dent_get cur (rest.takeWhile
                      (fun x => !(x = ' ') && !(x = '[') && !(x = '.'))) with
                  | some next =>
                    rw [hget] at he
                    simp only [cliPre, List.singleton_append,
                      List.mem_cons] at he
                    rcases he with rfl | he'
                    · exact bool_true_of_not_false h7
                    · exact ih _ _ e he'
                  | none =>
                    rw [hget] at he
                    simp only [cliFail, List.mem_singleton] at he
                    subst he
                    exact bool_true_of_not_false h7
          · rw [if_neg h6] at he
            simp [cliFail] at he

-- The claims.

/-- C1: a merge invocation whose single argument is a non-empty List whose
elements are all Lists substitutes the one-level concatenation of those
lists in argument order, with element order preserved; concretely, parsing
the text of examples/functions.c yields the list 1, 2, 3, 4. -/
theorem claim_C1 (lss : List (List Value)) (hne : lss ≠ []) :
    mergeFn [Value.list (lss.map Value.list)] =
      Except.ok (Value.list lss.flatten) ∧
    dentParseE ("@merge [ [ 1 2 ] [ 3 4 ] ]".data) [] =
      Except.ok (Value.list
        [Value.int 1, Value.int 2, Value.int 3, Value.int 4]) :=
  ⟨mergeFn_all_lists lss hne, rfl⟩

theorem claim_C1_witness :
    ([[Value.int 9]] : List (List Value)) ≠ [] ∧
    (mergeFn [Value.list ([[Value.int 9]].map Value.list)] =
        Except.ok (Value.list [[Value.int 9]].flatten) ∧
      dentParseE ("@merge [ [ 1 2 ] [ 3 4 ] ]".data) [] =
        Except.ok (Value.list
          [Value.int 1, Value.int 2, Value.int 3, Value.int 4])) :=
  ⟨List.cons_ne_nil _ _, claim_C1 [[Value.int 9]] (List.cons_ne_nil _ _)⟩

/-- C2: a merge invocation whose single argument is a non-empty List whose
elements are all Dicts substitutes the left-to-right fold of the dicts:
looking up any key in the result gives the value of the key's last
occurrence, and the key order of the result is the first-occurrence order
of all keys; concretely the two-dict texts with keys a:1, b:2 and with
a:1, a:2 parse to the expected dicts. -/
theorem claim_C2 (ds : List (List (Str × Value))) (hne : ds ≠ []) (k : Str) :
    mergeFn [Value.list (ds.map Value.dict)] =
      Except.ok (Value.dict (ds.flatten.foldl insertReplace [])) ∧
    dictLookup (ds.flatten.foldl insertReplace []) k =
      lastLookup ds.flatten k ∧
    keysOf (ds.flatten.foldl insertReplace []) =
      firstOccur (keysOf ds.flatten) ∧
    dentParseE ("@merge [ \x7ba:1\x7d \x7bb:2\x7d ]".data) [] =
      Except.ok (Value.dict [(['a'], Value.int 1), (['b'], Value.int 2)]) ∧
    dentParseE ("@merge [ \x7ba:1\x7d \x7ba:2\x7d ]".data) [] =
      Except.ok (Value.dict [(['a'], Value.int 2)]) :=
  ⟨mergeFn_all_dicts ds hne, foldIR_lookup_nil ds.flatten k,
    foldIR_keys_nil ds.flatten, rfl, rfl⟩

theorem claim_C2_witness :
    ([[(['a'], Value.int 1)], [(['a'], Value.int 2)]] :
      List (List (Str × Value))) ≠ [] ∧
    (mergeFn [Value.list
        ([[(['a'], Value.int 1)], [(['a'], Value.int 2)]].map Value.dict)] =
      Except.ok (Value.dict
        ([[(['a'], Value.int 1)], [(['a'], Value.int 2)]].flatten.foldl
          insertReplace [])) ∧
    dictLookup
        ([[(['a'], Value.int 1)], [(['a'], Value.int 2)]].flatten.foldl
          insertReplace []) ['a'] =
      lastLookup [[(['a'], Value.int 1)], [(['a'], Value.int 2)]].flatten
        ['a'] ∧
    keysOf ([[(['a'], Value.int 1)], [(['a'], Value.int 2)]].flatten.foldl
        insertReplace []) =
      firstOccur (keysOf
        [[(['a'], Value.int 1)], [(['a'], Value.int 2)]].flatten) ∧
    dentParseE ("@merge [ \x7ba:1\x7d \x7bb:2\x7d ]".data) [] =
      Except.ok (Value.dict [(['a'], Value.int 1), (['b'], Value.int 2)]) ∧
    dentParseE ("@merge [ \x7ba:1\x7d \x7ba:2\x7d ]".data) [] =
      Except.ok (Value.dict [(['a'], Value.int 2)])) :=
  ⟨List.cons_ne_nil _ _,
    claim_C2 [[(['a'], Value.int 1)], [(['a'], Value.int 2)]]
      (List.cons_ne_nil _ _) ['a']⟩

/-- C3: the import built-in keeps an explicit stack of in-progress paths
and fails with ImportCycleError whenever the requested path is already on
the stack; consequently a file importing itself directly, and a pair of
files importing each other, parse to ImportCycleError at every sufficient
fuel, never recursing without bound. -/
theorem claim_C3 (f : Nat) (fs : FileSys) (stk : List Str) (p : Str)
    (hp : p ∈ stk) :
    importFn (f + 1) fs stk [Value.str p] =
      Except.error DentError.importCycle ∧
    dentParseFileE (f + 6) [(['a'], "@import \"a\"".data)] ['a'] =
      Except.error DentError.importCycle ∧
    dentParseFileE (f + 11)
      [(['a'], "@import \"b\"".data), (['b'], "@import \"a\"".data)] ['a'] =
      Except.error DentError.importCycle :=
  ⟨importFn_stack f fs stk p hp, rfl, rfl⟩

theorem claim_C3_witness :
    (['x'] : Str) ∈ [(['x'] : Str)] ∧
    (importFn (0 + 1) [] [['x']] [Value.str ['x']] =
      Except.error DentError.importCycle ∧
    dentParseFileE (0 + 6) [(['a'], "@import \"a\"".data)] ['a'] =
      Except.error DentError.importCycle ∧
    dentParseFileE (0 + 11)
      [(['a'], "@import \"b\"".data), (['b'], "@import \"a\"".data)] ['a'] =
      Except.error DentError.importCycle) :=
  ⟨List.mem_singleton.mpr rfl,
    claim_C3 0 [] [['x']] ['x'] (List.mem_singleton.mpr rfl)⟩

/-- C4 counterexample: the tree consisting of the single value None
contains no unresolved function-call node, yet the grammar has no None
literal, so its serialization reads back as the bare string "None": the
round trip is not value-equal on this tree. -/
theorem claim_C4_counterexample :
    dentParseE (dent_to_str Value.none) [] =
      Except.ok (Value.str noneChars) ∧
    Value.str noneChars ≠ Value.none :=
  ⟨rfl, fun h => Value.noConfusion h⟩

/-- C4 (amended): for every tree that is free of None nodes and whose
dicts carry pairwise distinct keys (wfV), parsing the serialization
succeeds and returns the identical tree. -/
theorem claim_C4 (t : Value) (hwf : wfV t = true) :
    dentParseE (dent_to_str t) [] = Except.ok t :=
  dent_roundtrip t hwf

theorem claim_C4_witness :
    wfV (Value.dict [(['a'], Value.int 1), (['b'], Value.bool true)]) =
      true ∧
    dentParseE (dent_to_str
        (Value.dict [(['a'], Value.int 1), (['b'], Value.bool true)])) [] =
      Except.ok
        (Value.dict [(['a'], Value.int 1), (['b'], Value.bool true)]) :=
  ⟨rfl, claim_C4
    (Value.dict [(['a'], Value.int 1), (['b'], Value.bool true)]) rfl⟩

/-- C5 counterexample: dent_as_bool returns a bare bool and dent_as_int a
bare int64_t (cdent.h lines 44 and 46), so each mismatch sentinel
coincides with a valid success value: as_int on a string returns the same
0 as as_int on the integer 0, and as_bool on an int returns the same
false as as_bool on the boolean false — the sentinel is not
distinguishable from every valid result. -/
theorem claim_C5_counterexample :
    dent_as_int (Value.str ['a']) = 0 ∧
    dent_as_int (Value.int 0) = 0 ∧
    Value.str ['a'] ≠ Value.int 0 ∧
    dent_as_bool (Value.int 3) = false ∧
    dent_as_bool (Value.bool false) = false :=
  ⟨rfl, rfl, fun h => Value.noConfusion h, rfl, rfl⟩

/-- C5 (amended): each strict extractor, on any value whose variant is
not the requested one, returns its fixed sentinel (NULL for as_str,
false for as_bool, 0 for as_int, the zero float for as_float) — each
mismatch case is stated on its own, so every mismatched scalar is
covered; in particular as_int, as_bool and as_float on a string-typed
value, as_int on a Float and as_float on an Int all return the sentinel
deterministically, with no coercion between numeric kinds or from
string; only as_str's sentinel lies outside the success range. -/
theorem claim_C5 (v : Value) (s : Str) (m : Int) (e : Nat) (n : Int) :
    (dent_is_str v = false → dent_as_str v = Option.none) ∧
    (dent_is_bool v = false → dent_as_bool v = false) ∧
    (dent_is_int v = false → dent_as_int v = 0) ∧
    (dent_is_float v = false → dent_as_float v = (0, 0)) ∧
    dent_as_int (Value.str s) = 0 ∧
    dent_as_bool (Value.str s) = false ∧
    dent_as_float (Value.str s) = (0, 0) ∧
    dent_as_str (Value.str s) = some s ∧
    dent_as_int (Value.float m e) = 0 ∧
    dent_as_float (Value.int n) = (0, 0) ∧
    dent_as_bool (Value.int n) = false := by
  refine ⟨?_, ?_, ?_, ?_, rfl, rfl, rfl, rfl, rfl, rfl, rfl⟩ <;>
    cases v <;> simp [dent_is_str, dent_is_bool, dent_is_int,
      dent_is_float, dent_as_str, dent_as_bool, dent_as_int,
      dent_as_float]

/-- C6 counterexample: dent_get returns one pointer (cdent.h line 18), so
NULL stands both for a key absent from a Dict and for a value that is not
a Dict at all — the not-found and type-mismatch outcomes are not mutually
distinguishable by the caller. -/
theorem claim_C6_counterexample :
    dent_get (Value.dict [(['a'], Value.int 1)]) ['b'] = Option.none ∧
    dent_get (Value.int 5) ['b'] = Option.none ∧
    dent_is_dict (Value.dict [(['a'], Value.int 1)]) = true ∧
    dent_is_dict (Value.int 5) = false :=
  ⟨rfl, rfl, rfl, rfl⟩

/-- C6 (amended): dent_get on a Dict containing the key returns that
child, and returns the one failure value (NULL, modelled none) both when
the key is absent and when the value is not a Dict; it is pure, so it
never aborts and leaves the tree unchanged. -/
theorem claim_C6 (kvs : List (Str × Value)) (k k2 k3 : Str) (v w : Value)
    (hfind : dictLookup kvs k = some v)
    (hmiss : dictLookup kvs k2 = Option.none)
    (hw : dent_is_dict w = false) :
    dent_get (Value.dict kvs) k = some v ∧
    dent_get (Value.dict kvs) k2 = Option.none ∧
    dent_get w k3 = Option.none := by
  refine ⟨hfind, hmiss, ?_⟩
  cases w <;> simp_all [dent_is_dict, dent_get]

theorem claim_C6_witness :
    dictLookup [(['a'], Value.int 1)] ['a'] = some (Value.int 1) ∧
    dictLookup [(['a'], Value.int 1)] ['c'] = Option.none ∧
    dent_is_dict (Value.bool true) = false ∧
    (dent_get (Value.dict [(['a'], Value.int 1)]) ['a'] =
        some (Value.int 1) ∧
      dent_get (Value.dict [(['a'], Value.int 1)]) ['c'] = Option.none ∧
      dent_get (Value.bool true) ['d'] = Option.none) :=
  ⟨rfl, rfl, rfl,
    claim_C6 [(['a'], Value.int 1)] ['a'] ['c'] ['d'] (Value.int 1)
      (Value.bool true) rfl rfl rfl⟩

/-- C7: whenever parsing ends in any error, the dent_parse boundary
returns no handle at all — the caller observes only the absence of a
handle, never a partial tree; concrete inputs exercise the LexError,
SyntaxError, UnknownFunction, FunctionArityOrTypeError and ImportIOError
classes. -/
theorem claim_C7 (input : Str) (fs : FileSys) (e : DentError)
    (herr : dentParseE input fs = Except.error e) :
    dent_parse input fs = Option.none ∧
    dent_parse ("\"abc".data) [] = Option.none ∧
    dent_parse ("]".data) [] = Option.none ∧
    dent_parse ("@frobnicate 1 2".data) [] = Option.none ∧
    dent_parse ("@merge [ ]".data) [] = Option.none ∧
    dent_parse ("@import \"x\"".data) [] = Option.none := by
  refine ⟨?_, rfl, rfl, rfl, rfl, rfl⟩
  rw [dent_parse, herr]
  rfl

theorem claim_C7_witness :
    dentParseE ("]".data) [] = Except.error DentError.synErr ∧
    (dent_parse ("]".data) [] = Option.none ∧
      dent_parse ("\"abc".data) [] = Option.none ∧
      dent_parse ("]".data) [] = Option.none ∧
      dent_parse ("@frobnicate 1 2".data) [] = Option.none ∧
      dent_parse ("@merge [ ]".data) [] = Option.none ∧
      dent_parse ("@import \"x\"".data) [] = Option.none) :=
  ⟨rfl, claim_C7 ("]".data) [] DentError.synErr rfl⟩

/-- C8 counterexample: the query tool's error exits return EXIT_FAILURE
without any release call (part_000 lines 56-59 among others): on a
successfully parsed handle whose query fails — here an index selector
applied to an int — the run performs zero dent_free and zero
dent_free_str calls, so the handle is obtained but never released. -/
theorem claim_C8_counterexample :
    (cliMain (some (Value.int 5)) ['[', '0', ']']).ok = false ∧
    freeCount (cliMain (some (Value.int 5)) ['[', '0', ']']).events = 0 ∧
    freeStrCount (cliMain (some (Value.int 5)) ['[', '0', ']']).events =
      0 :=
  ⟨rfl, rfl, rfl⟩

/-- C8 (amended): on every run of the query tool that reaches the success
exit, dent_free is called exactly once for the parsed handle and
dent_free_str exactly once for the string obtained from dent_to_str; on
every failing exit path neither release operation is called at all, so
the release discipline holds only on the success path. -/
theorem claim_C8 (v : Value) (q : Str)
    (hok : (cliMain (some v) q).ok = true) :
    freeCount (cliMain (some v) q).events = 1 ∧
    freeStrCount (cliMain (some v) q).events = 1 := by
  have h := cliLoop_counts (q.length + 1) v q
  have hok2 : (cliLoop (q.length + 1) v q).ok = true := hok
  rw [hok2] at h
  simp only [if_pos] at h
  exact ⟨h.1, h.2⟩

theorem claim_C8_witness :
    (cliMain (some (Value.bool true)) []).ok = true ∧
    (freeCount (cliMain (some (Value.bool true)) []).events = 1 ∧
      freeStrCount (cliMain (some (Value.bool true)) []).events = 1) :=
  ⟨rfl, claim_C8 (Value.bool true) [] rfl⟩

/-- C9: every navigation-accessor event emitted by any run of the query
tool satisfies its guard — a dent_get_index call is made only on a value
that passed dent_is_list with the parsed index strictly below dent_len,
and a dent_get call only on a value that passed dent_is_dict; a
wrong-kind step exits with failure before any accessor call. -/
theorem claim_C9 (parsed : Option Value) (q : Str) (e : Ev)
    (he : e ∈ (cliMain parsed q).events) : evGuardOk e := by
  cases parsed with
  | none => simp [cliMain, cliFail] at he
  | some v => exact cliLoop_guards (q.length + 1) v q e he

theorem claim_C9_witness :
    Ev.getIndex (Value.list [Value.int 7]) 0 ∈
      (cliMain (some (Value.list [Value.int 7])) ['[', '0', ']']).events ∧
    evGuardOk (Ev.getIndex (Value.list [Value.int 7]) 0) :=
  ⟨List.mem_cons_self _ _,
    claim_C9 (some (Value.list [Value.int 7])) ['[', '0', ']']
      (Ev.getIndex (Value.list [Value.int 7]) 0)
      (List.mem_cons_self _ _)⟩

/-- C10 counterexample: strtoul does not map every non-numeral bracket
content to 0 — it converts the longest digit prefix, so the selector
content "1a" yields index 1: on a two-element list the query selects
element 1, not element 0. -/
theorem claim_C10_counterexample :
    strtoul10 ['1', 'a'] = 1 ∧
    (cliMain (some (Value.list [Value.int 10, Value.int 20]))
        ['[', '1', 'a', ']']).output =
      some (dent_to_str (Value.int 20)) :=
  ⟨rfl, rfl⟩

/-- C10 (amended): bracket content whose whitespace-stripped text starts
with no digit and no sign — including the empty selector — converts to
index 0 under strtoul base 10; concretely the query with the empty
selector applied to a non-empty list selects element 0 instead of being
rejected. -/
theorem claim_C10 (s : Str)
    (hdig : (s.dropWhile isSpaceC).takeWhile isDigitC = [])
    (hplus : ¬((s.dropWhile isSpaceC).head? = some '+'))
    (hminus : ¬((s.dropWhile isSpaceC).head? = some '-')) :
    strtoul10 s = 0 ∧
    (cliMain (some (Value.list [Value.int 10, Value.int 20]))
        ['[', ']']).output = some (dent_to_str (Value.int 10)) := by
  refine ⟨?_, rfl⟩
  rw [strtoul10, if_neg hplus, if_neg hminus, strtoulConv, hdig]
  norm_num [natVal]

theorem claim_C10_witness :
    ((['z'] : Str).dropWhile isSpaceC).takeWhile isDigitC = [] ∧
    ¬(((['z'] : Str).dropWhile isSpaceC).head? = some '+') ∧
    ¬(((['z'] : Str).dropWhile isSpaceC).head? = some '-') ∧
    (strtoul10 ['z'] = 0 ∧
      (cliMain (some (Value.list [Value.int 10, Value.int 20]))
        ['[', ']']).output = some (dent_to_str (Value.int 10))) :=
  ⟨rfl, by decide, by decide,
    claim_C10 ['z'] rfl (by decide) (by decide)⟩

end Dent
